import Mathlib

/-!
Verification development for a two-variant board-game engine
(`chess.py` and `checkers.py`): a shallow embedding of the piece
movement rules, the board mutation protocol, and the turn/undo state
machines, together with theorems settling the specification claims.

Conventions of the embedding:
* The Python colors "белые"/"негры" are `Color.white`/`Color.black`.
* Python `(row, col)` coordinates are unbounded `ℤ`; `check_pos`
  mirrors `Figure.check_pos`.
* The 8×8 grid `self.board` is a function `ℤ → ℤ → Option α`.
  Python list indexing accepts negative indices in `[-8, 0)` (they wrap
  to the end of the list) and raises `IndexError` outside `[-8, 8)`;
  `get_figure` mirrors the wrap and returns `none` outside `[-8, 8)`.
  Every code path reasoned about below either guards its accesses with
  `check_pos` (so the wrap never fires) or leaves the board unmodified
  in both semantics when the raising case would be reached.
* Methods become functions taking the `self` fields they read
  (`color`, and for the Demon its `power`) as arguments.
* `random.randint` outcomes (the Mage destination) are inputs.
-/

/-- The two players: "белые" (white) and "негры" (black). -/
inductive Color where
  | white
  | black
deriving DecidableEq, Repr

/-- `"негры" if self.current_turn == "белые" else "белые"` — the turn switch. -/
def Color.other : Color → Color
  | .white => .black
  | .black => .white

/-- The chess-variant piece classes of `chess.py`. -/
inductive Kind where
  | Pawn
  | Rook
  | Knight
  | Bishop
  | Queen
  | King
  | Mage
  | Spearman
  | Demon
deriving DecidableEq, Repr

/-- A chess-variant figure.  `power` models the attribute set by
`Demon.__init__` (`self.power = "King"`); only the Demon ever reads it,
the other classes do not have the attribute and carry the default. -/
structure Figure where
  color : Color
  kind : Kind
  power : Kind := .King
deriving DecidableEq, Repr

/-- An 8×8 grid of optional occupants (`self.board`), addressed by
integer row and column. -/
def Cells (α : Type) : Type := ℤ → ℤ → Option α

/-- `Figure.check_pos`: `0 <= end_row < 8 and 0 <= end_col < 8`. -/
def check_pos (r c : ℤ) : Bool :=
  decide (0 ≤ r ∧ r < 8 ∧ 0 ≤ c ∧ c < 8)

/-- Python list index resolution for an 8-element list: a negative
index in `[-8, 0)` counts from the end. -/
def py_idx (i : ℤ) : ℤ :=
  if i < 0 then i + 8 else i

/-- `Board.get_figure`: `self.board[row][col]`, with Python's negative
indexing on both lists; outside `[-8, 8)` Python raises, modelled as
`none` (no caller below both reaches that case and uses the result). -/
def get_figure {α : Type} (cells : Cells α) (r c : ℤ) : Option α :=
  if -8 ≤ r ∧ r < 8 ∧ -8 ≤ c ∧ c < 8 then cells (py_idx r) (py_idx c) else none

/-- `self.board[row][col] = v`, with Python's negative indexing. -/
def set_figure {α : Type} (cells : Cells α) (r c : ℤ) (v : Option α) : Cells α :=
  fun r' c' => if r' = py_idx r ∧ c' = py_idx c then v else cells r' c'

@[simp] theorem get_figure_in_range {α : Type} (cells : Cells α) (r c : ℤ)
    (h : check_pos r c = true) : get_figure cells r c = cells r c := by
  simp only [check_pos, decide_eq_true_eq] at h
  rw [get_figure, if_pos (by omega)]
  unfold py_idx
  rw [if_neg (by omega), if_neg (by omega)]

theorem get_set_figure {α : Type} (cells : Cells α) (r c r' c' : ℤ) (v : Option α)
    (hr : -8 ≤ r' ∧ r' < 8 ∧ -8 ≤ c' ∧ c' < 8) :
    get_figure (set_figure cells r c v) r' c' =
      if py_idx r' = py_idx r ∧ py_idx c' = py_idx c then v
      else get_figure cells r' c' := by
  simp only [get_figure, set_figure, hr, if_true]
  split <;> simp_all

/-! ## Chess piece movement (`chess.py`) -/

/-- `Pawn.get_possible_moves`. -/
def pawn_moves (color : Color) (cells : Cells Figure) (sr sc : ℤ) : List (ℤ × ℤ) :=
  let direction : ℤ := match color with | .white => -1 | .black => 1
  let nr := sr + direction
  let forward :=
    if check_pos nr sc ∧ get_figure cells nr sc = none then
      (nr, sc) ::
        (if (color = .white ∧ sr = 6) ∨ (color = .black ∧ sr = 1) then
          let nr2 := sr + 2 * direction
          if check_pos nr2 sc ∧ get_figure cells nr2 sc = none then [(nr2, sc)] else []
        else [])
    else []
  let diag := [sc - 1, sc + 1].filterMap fun col =>
    if check_pos nr col then
      match get_figure cells nr col with
      | some t => if t.color ≠ color then some (nr, col) else none
      | none => none
    else none
  forward ++ diag

/-- The shared sliding loop of `Rook.get_possible_moves` and
`Bishop.get_possible_moves`, starting at `(row, col)` and stepping by
`(dy, dx)`.  The Python `while self.check_pos(row, col)` loop makes at
most 8 iterations (the positions move along a line with unit steps and
stay inside the 8×8 board), so fuel 8 is exact. -/
def slide_moves (cells : Cells Figure) (color : Color) (row col dy dx : ℤ) :
    ℕ → List (ℤ × ℤ)
  | 0 => []
  | fuel + 1 =>
    if check_pos row col then
      match get_figure cells row col with
      | none => (row, col) :: slide_moves cells color (row + dy) (col + dx) dy dx fuel
      | some p => if p.color ≠ color then [(row, col)] else []
    else []

def rook_dirs : List (ℤ × ℤ) := [(-1, 0), (1, 0), (0, -1), (0, 1)]

def bishop_dirs : List (ℤ × ℤ) := [(-1, -1), (-1, 1), (1, -1), (1, 1)]

/-- `Rook.get_possible_moves`. -/
def rook_moves (color : Color) (cells : Cells Figure) (sr sc : ℤ) : List (ℤ × ℤ) :=
  (rook_dirs.map fun d => slide_moves cells color (sr + d.1) (sc + d.2) d.1 d.2 8).flatten

/-- `Bishop.get_possible_moves`. -/
def bishop_moves (color : Color) (cells : Cells Figure) (sr sc : ℤ) : List (ℤ × ℤ) :=
  (bishop_dirs.map fun d => slide_moves cells color (sr + d.1) (sc + d.2) d.1 d.2 8).flatten

/-- Offset-table movement shared by Knight, King and Spearman: keep the
offsets that are on the board and not occupied by a same-color piece. -/
def offset_moves (color : Color) (cells : Cells Figure)
    (offsets : List (ℤ × ℤ)) : List (ℤ × ℤ) :=
  offsets.filterMap fun p =>
    if check_pos p.1 p.2 then
      match get_figure cells p.1 p.2 with
      | none => some p
      | some t => if t.color ≠ color then some p else none
    else none

/-- `Knight.get_possible_moves`. -/
def knight_moves (color : Color) (cells : Cells Figure) (sr sc : ℤ) : List (ℤ × ℤ) :=
  offset_moves color cells
    [(sr - 2, sc - 1), (sr - 2, sc + 1), (sr - 1, sc - 2), (sr - 1, sc + 2),
     (sr + 1, sc - 2), (sr + 1, sc + 2), (sr + 2, sc - 1), (sr + 2, sc + 1)]

/-- `Queen.get_possible_moves`: `Rook(color).get_possible_moves(...) +
Bishop(color).get_possible_moves(...)`. -/
def queen_moves (color : Color) (cells : Cells Figure) (sr sc : ℤ) : List (ℤ × ℤ) :=
  rook_moves color cells sr sc ++ bishop_moves color cells sr sc

/-- `King.get_possible_moves`. -/
def king_moves (color : Color) (cells : Cells Figure) (sr sc : ℤ) : List (ℤ × ℤ) :=
  offset_moves color cells
    [(sr - 1, sc - 1), (sr - 1, sc), (sr - 1, sc + 1), (sr, sc - 1),
     (sr, sc + 1), (sr + 1, sc - 1), (sr + 1, sc), (sr + 1, sc + 1)]

/-- `Spearman.get_possible_moves`. -/
def spearman_moves (color : Color) (cells : Cells Figure) (sr sc : ℤ) : List (ℤ × ℤ) :=
  let direction : ℤ := match color with | .white => -1 | .black => 1
  offset_moves color cells
    [(sr + direction, sc - 1), (sr + direction, sc), (sr + direction, sc + 1)]

/-- `get_possible_moves` of a freshly constructed piece of class `k`,
as produced by `Power(self.color)` in `Demon.get_possible_moves` (and
by `Rook(...)`/`Bishop(...)` inside the Queen).  `Mage` inherits the
base-class method returning `[]`; a fresh `Demon` has `power = "King"`
and therefore delegates to a fresh King. -/
def fresh_moves (color : Color) (k : Kind) (cells : Cells Figure) (sr sc : ℤ) :
    List (ℤ × ℤ) :=
  match k with
  | .Pawn => pawn_moves color cells sr sc
  | .Rook => rook_moves color cells sr sc
  | .Knight => knight_moves color cells sr sc
  | .Bishop => bishop_moves color cells sr sc
  | .Queen => queen_moves color cells sr sc
  | .King => king_moves color cells sr sc
  | .Mage => []
  | .Spearman => spearman_moves color cells sr sc
  | .Demon => king_moves color cells sr sc

/-- `get_possible_moves` of a figure: each class runs its own movement
pattern, and `Demon.get_possible_moves` looks up the class named by its
current `power` and delegates to a fresh instance of it. -/
def Figure.get_possible_moves (f : Figure) (cells : Cells Figure) (sr sc : ℤ) :
    List (ℤ × ℤ) :=
  match f.kind with
  | .Demon => fresh_moves f.color f.power cells sr sc
  | k => fresh_moves f.color k cells sr sc

/-- `Figure.is_valid_move`: destination on the board, not holding a
same-color piece, and in the destination set — the membership test is
skipped exactly when `type(self) == Mage`. -/
def Figure.is_valid_move (f : Figure) (cells : Cells Figure) (sr sc er ec : ℤ) : Bool :=
  if ¬ check_pos er ec then false
  else
    let same_color : Bool :=
      match get_figure cells er ec with
      | some t => t.color = f.color
      | none => false
    if same_color then false
    else if (er, ec) ∉ f.get_possible_moves cells sr sc ∧ f.kind ≠ .Mage then false
    else true

/-! ## Chess board mutation (`Board.move_figure`) -/

/-- The result of `Board.move_figure`: `False` (the rejected signal) or
the captured figure / `None`. -/
inductive MoveResult where
  | rejected
  | moved (captured : Option Figure)
deriving DecidableEq, Repr

/-- `Board.move_figure`, as a function from the grid to the new grid
paired with the returned value. -/
def Board.move_figure (cells : Cells Figure) (sr sc er ec : ℤ) :
    Cells Figure × MoveResult :=
  match get_figure cells sr sc with
  | none => (cells, .rejected)
  | some figure =>
    if figure.is_valid_move cells sr sc er ec then
      let captured := get_figure cells er ec
      let cells1 := set_figure cells er ec (some figure)
      let cells2 := set_figure cells1 sr sc none
      (cells2, .moved captured)
    else (cells, .rejected)

/-! ## Checkers pieces (`checkers.py`) -/

/-- The checkers piece classes: `Checker` and its subclass `KingChecker`. -/
inductive CKind where
  | Checker
  | KingChecker
deriving DecidableEq, Repr

/-- A checkers figure. -/
structure CFigure where
  color : Color
  ckind : CKind
deriving DecidableEq, Repr

def checker_dirs : List (ℤ × ℤ) := [(1, 1), (1, -1), (-1, 1), (-1, -1)]

/-- The capture phase of `Checker.get_possible_moves`: for each of the
four diagonal directions, a jump landing two squares away is offered
when the adjacent square holds an enemy piece and the landing square is
on the board and empty. -/
def checker_jump_moves (cells : Cells CFigure) (color : Color) (sr sc : ℤ) :
    List (ℤ × ℤ) :=
  checker_dirs.filterMap fun d =>
    if check_pos (sr + d.1) (sc + d.2) then
      match get_figure cells (sr + d.1) (sc + d.2) with
      | some p =>
        if p.color ≠ color ∧ check_pos (sr + 2 * d.1) (sc + 2 * d.2) ∧
            get_figure cells (sr + 2 * d.1) (sc + 2 * d.2) = none then
          some (sr + 2 * d.1, sc + 2 * d.2)
        else none
      | none => none
    else none

/-- `Checker.get_possible_moves`: jumps first; the single-step
forward-diagonal moves are added only when `not (is_killer or moves)`. -/
def Checker.get_possible_moves (cells : Cells CFigure) (color : Color)
    (sr sc : ℤ) (is_killer : Bool) : List (ℤ × ℤ) :=
  let moves := checker_jump_moves cells color sr sc
  if ¬ (is_killer = true ∨ moves ≠ []) then
    let dir : ℤ := match color with | .white => -1 | .black => 1
    moves ++ ([(dir, 1), (dir, -1)] : List (ℤ × ℤ)).filterMap fun d =>
      if check_pos (sr + d.1) (sc + d.2) then some (sr + d.1, sc + d.2) else none
  else moves

/-- The per-direction scan of `KingChecker.get_possible_moves`:
accumulate empty squares; at the first occupied square, if it holds an
enemy and the square just past it is on the board and empty, offer that
landing square; stop in either case.  As with `slide_moves`, the
`while` loop makes at most 8 iterations, so fuel 8 is exact. -/
def kc_slide (cells : Cells CFigure) (color : Color) (row col dr dc : ℤ) :
    ℕ → List (ℤ × ℤ)
  | 0 => []
  | fuel + 1 =>
    if check_pos row col then
      match get_figure cells row col with
      | none => (row, col) :: kc_slide cells color (row + dr) (col + dc) dr dc fuel
      | some p =>
        if p.color ≠ color then
          if check_pos (row + dr) (col + dc) ∧
              get_figure cells (row + dr) (col + dc) = none then
            [(row + dr, col + dc)]
          else []
        else []
    else []

/-- `KingChecker.get_possible_moves`.  Note that the `is_killer`
argument is received but never read by the source method. -/
def KingChecker.get_possible_moves (cells : Cells CFigure) (color : Color)
    (sr sc : ℤ) (_is_killer : Bool) : List (ℤ × ℤ) :=
  (checker_dirs.map fun d => kc_slide cells color (sr + d.1) (sc + d.2) d.1 d.2 8).flatten

/-- Dynamic dispatch of `get_possible_moves` on a checkers figure. -/
def CFigure.get_possible_moves (f : CFigure) (cells : Cells CFigure)
    (sr sc : ℤ) (is_killer : Bool) : List (ℤ × ℤ) :=
  match f.ckind with
  | .Checker => Checker.get_possible_moves cells f.color sr sc is_killer
  | .KingChecker => KingChecker.get_possible_moves cells f.color sr sc is_killer

/-- `Checker.is_valid_move` (inherited unchanged by `KingChecker`):
destination on the board, empty, and in the destination set. -/
def CFigure.is_valid_move (f : CFigure) (cells : Cells CFigure)
    (sr sc er ec : ℤ) (is_killer : Bool) : Bool :=
  if ¬ check_pos er ec then false
  else if get_figure cells er ec ≠ none then false
  else if (er, ec) ∉ f.get_possible_moves cells sr sc is_killer then false
  else true

/-- The result of `CheckersBoard.move_figure`. -/
inductive CMoveResult where
  | rejected
  | moved (captured : Option CFigure)
deriving DecidableEq, Repr

/-- `CheckersBoard.move_figure`: validate, remove the jumped-over piece
when the move spans two or more rows, relocate, and promote a piece
reaching the farthest row for its color to a `KingChecker`. -/
def CheckersBoard.move_figure (cells : Cells CFigure) (sr sc er ec : ℤ)
    (is_killer : Bool) : Cells CFigure × CMoveResult :=
  match get_figure cells sr sc with
  | none => (cells, .rejected)
  | some figure =>
    if figure.is_valid_move cells sr sc er ec is_killer then
      let delta_row := er - sr
      let delta_col := ec - sc
      let dr : ℤ := if delta_row > 0 then 1 else -1
      let dc : ℤ := if delta_col > 0 then 1 else -1
      let captured :=
        if |delta_row| ≥ 2 then get_figure cells (er - dr) (ec - dc) else none
      let cells1 :=
        if |delta_row| ≥ 2 then set_figure cells (er - dr) (ec - dc) none else cells
      let cells2 := set_figure cells1 er ec (some figure)
      let cells3 := set_figure cells2 sr sc none
      -- `isinstance(figure, Checker)` holds for both checkers classes.
      let cells4 :=
        if (figure.color = .white ∧ er = 0) ∨ (figure.color = .black ∧ er = 7) then
          set_figure cells3 er ec (some ⟨figure.color, .KingChecker⟩)
        else cells3
      (cells4, .moved captured)
    else (cells, .rejected)

/-- `CheckersBoard.initialize_board`: checkers of both colors on the
dark squares of rows 0–2 and 5–7. -/
def checkers_initial_cells : Cells CFigure := fun r c =>
  if (r + c) % 2 = 1 ∧ 0 ≤ r ∧ r < 8 ∧ 0 ≤ c ∧ c < 8 then
    if r < 3 then some ⟨.black, .Checker⟩
    else if r > 4 then some ⟨.white, .Checker⟩
    else none
  else none

/-! ## Chess game controller (`Game`) -/

/-- A `Move` record of the undo log. -/
structure MoveRec where
  sr : ℤ
  sc : ℤ
  er : ℤ
  ec : ℤ
  captured : Option Figure
deriving DecidableEq, Repr

/-- The state owned by `Game`: the grid, `current_turn`, `move_count`
(a half-incrementing counter, modelled exactly in `ℚ`) and the undo
log `moves` (most recent first: the source appends to the end of the
list and `pop()`s from the end). -/
structure GameState where
  cells : Cells Figure
  current_turn : Color
  move_count : ℚ
  moves : List MoveRec

/-- `Game.undo_move`: pop the last move record, put the figure now on
its destination back on its origin, put the captured piece (or `None`)
back on the destination, flip the turn and decrement the counter; a
no-op when the log is empty. -/
def Game.undo_move (g : GameState) : GameState :=
  match g.moves with
  | [] => g
  | m :: rest =>
    let cells1 := set_figure g.cells m.sr m.sc (get_figure g.cells m.er m.ec)
    let cells2 := set_figure cells1 m.er m.ec m.captured
    { cells := cells2
      current_turn := g.current_turn.other
      move_count := g.move_count - 1/2
      moves := rest }

/-- One trip through the body of `Game.play`, with the console
interaction resolved: either the `undo` command, or a selected origin
together with the entered (for a Mage: randomly drawn) destination. -/
inductive PlayInput where
  | undo
  | move (sr sc er ec : ℤ)

/-- One iteration of the `Game.play` loop.  Returns the new state and
`some winner` when the mutated loop `break`s on a captured King (the
win condition), `none` while the game goes on.  A selection naming an
empty square is returned unchanged (the source's `choose_figure`
re-prompts before ever returning such a selection). -/
def Game.play_step (g : GameState) (i : PlayInput) : GameState × Option Color :=
  match i with
  | .undo => (Game.undo_move g, none)
  | .move sr sc er ec =>
    match get_figure g.cells sr sc with
    | none => (g, none)
    | some figure =>
      let p := Board.move_figure g.cells sr sc er ec
      match p.2 with
      | .rejected => ({ g with cells := p.1 }, none)
      | .moved captured =>
        let moves' : List MoveRec := ⟨sr, sc, er, ec, captured⟩ :: g.moves
        let count' := g.move_count + 1/2
        -- `if type(figure) == Demon and captured_figure != None:` —
        -- the controller mutates the demon object, now sitting on the
        -- destination square.
        let cells2 :=
          match captured with
          | some cf =>
            if figure.kind = .Demon then
              set_figure p.1 er ec (some { figure with power := cf.kind })
            else p.1
          | none => p.1
        match captured with
        | some cf =>
          if cf.kind = .King then
            (⟨cells2, g.current_turn, count', moves'⟩, some g.current_turn)
          else
            (⟨cells2, g.current_turn.other, count', moves'⟩, none)
        | none => (⟨cells2, g.current_turn.other, count', moves'⟩, none)

/-- Driving `Game.play` over a list of resolved console inputs: the
loop stops for good the moment an iteration reports a winner. -/
def Game.run_loop (g : GameState) : List PlayInput → GameState × Option Color
  | [] => (g, none)
  | i :: rest =>
    let p := Game.play_step g i
    match p.2 with
    | some w => (p.1, some w)
    | none => Game.run_loop p.1 rest

/-! ## Checkers game controller (`CheckersGame.play`) -/

/-- The state owned by `CheckersGame` (it has no undo log). -/
structure CState where
  cells : Cells CFigure
  current_turn : Color
  move_count : ℚ

/-- Outcome of one iteration of the inner (capture-chain) loop of
`CheckersGame.play`. -/
inductive InnerResult where
  /-- The hint list was empty: the ply ends, the turn switches, and the
  inner loop breaks before asking for a destination. -/
  | no_moves (s : CState)
  /-- `move_figure` returned the rejected signal: the state is
  unchanged and the loop repeats with the same piece and flag. -/
  | invalid (s : CState)
  /-- The move captured a checker: the loop continues from the landing
  square with `is_killer = True`; the turn does not switch. -/
  | chain (s : CState) (r c : ℤ)
  /-- A non-capturing move: the ply ends and the turn switches. -/
  | done (s : CState)

/-- The state carried by an `InnerResult`. -/
def InnerResult.state : InnerResult → CState
  | .no_moves s => s
  | .invalid s => s
  | .chain s _ _ => s
  | .done s => s

def InnerResult.is_chain : InnerResult → Bool
  | .chain _ _ _ => true
  | _ => false

def InnerResult.is_no_moves : InnerResult → Bool
  | .no_moves _ => true
  | _ => false

def InnerResult.is_done : InnerResult → Bool
  | .done _ => true
  | _ => false

/-- One iteration of the inner loop of `CheckersGame.play`: re-fetch
the piece at the current position, compute its hints with the current
`is_killer` flag, and either break (empty hints), retry (rejected
move), continue the chain (a capture), or end the ply (a plain move).
The entered target position is an input.  A position naming an empty
square is unreachable in the loop and returned as `invalid`. -/
def CheckersGame.inner_step (s : CState) (sr sc : ℤ) (is_killer : Bool)
    (er ec : ℤ) : InnerResult :=
  match get_figure s.cells sr sc with
  | none => .invalid s
  | some figure =>
    let moves := figure.get_possible_moves s.cells sr sc is_killer
    if moves.isEmpty then
      .no_moves ⟨s.cells, s.current_turn.other, s.move_count + 1/2⟩
    else
      let p := CheckersBoard.move_figure s.cells sr sc er ec is_killer
      match p.2 with
      | .rejected => .invalid { s with cells := p.1 }
      | .moved captured =>
        match captured with
        | some _ => .chain { s with cells := p.1 } er ec
        | none => .done ⟨p.1, s.current_turn.other, s.move_count + 1/2⟩

/-! ## Helper lemmas -/

@[simp] theorem Color.other_other (c : Color) : c.other.other = c := by
  cases c <;> rfl

theorem mem_offset_moves {color : Color} {cells : Cells Figure}
    {offsets : List (ℤ × ℤ)} {p : ℤ × ℤ}
    (h : p ∈ offset_moves color cells offsets) : check_pos p.1 p.2 = true := by
  simp only [offset_moves, List.mem_filterMap] at h
  obtain ⟨a, -, ha⟩ := h
  by_cases hc : check_pos a.1 a.2 = true
  · rw [if_pos hc] at ha
    rcases hg : get_figure cells a.1 a.2 with - | t <;> simp only [hg] at ha
    · cases ha; exact hc
    · by_cases ht : t.color ≠ color
      · rw [if_pos ht] at ha; cases ha; exact hc
      · rw [if_neg ht] at ha; cases ha
  · rw [if_neg hc] at ha; cases ha

theorem mem_slide_moves_check_pos {cells : Cells Figure} {color : Color}
    {dy dx : ℤ} {p : ℤ × ℤ} :
    ∀ {fuel : ℕ} {row col : ℤ},
      p ∈ slide_moves cells color row col dy dx fuel → check_pos p.1 p.2 = true := by
  intro fuel
  induction fuel with
  | zero => intro row col h; simp [slide_moves] at h
  | succ n ih =>
    intro row col h
    rw [slide_moves] at h
    by_cases hc : check_pos row col = true
    · rw [if_pos hc] at h
      rcases hg : get_figure cells row col with - | q <;> simp only [hg] at h
      · rcases List.mem_cons.mp h with rfl | h
        · exact hc
        · exact ih h
      · by_cases hq : q.color ≠ color
        · rw [if_pos hq] at h
          rcases List.mem_singleton.mp h with rfl; exact hc
        · rw [if_neg hq] at h; cases h
    · rw [if_neg hc] at h; cases h

theorem pawn_diag_check_pos {color : Color} {cells : Cells Figure} {nr : ℤ}
    {l : List ℤ} {p : ℤ × ℤ}
    (h : p ∈ l.filterMap fun col =>
      if check_pos nr col then
        match get_figure cells nr col with
        | some t => if t.color ≠ color then some (nr, col) else none
        | none => none
      else none) : check_pos p.1 p.2 = true := by
  simp only [List.mem_filterMap] at h
  obtain ⟨a, -, ha⟩ := h
  by_cases hc : check_pos nr a = true
  · rw [if_pos hc] at ha
    rcases hg : get_figure cells nr a with - | t <;> simp only [hg] at ha
    · cases ha
    · by_cases ht : t.color ≠ color
      · rw [if_pos ht] at ha; cases ha; exact hc
      · rw [if_neg ht] at ha; cases ha
  · rw [if_neg hc] at ha; cases ha

theorem mem_pawn_moves_check_pos {color : Color} {cells : Cells Figure}
    {sr sc : ℤ} {p : ℤ × ℤ} (h : p ∈ pawn_moves color cells sr sc) :
    check_pos p.1 p.2 = true := by
  cases color <;>
  · simp only [pawn_moves, List.mem_append] at h
    rcases h with h | h
    · split_ifs at h with h1 h2 h3 <;>
        [skip; skip; skip; exact absurd h (List.not_mem_nil p)] <;>
        rcases List.mem_cons.mp h with rfl | h
      · exact h1.1
      · rcases List.mem_singleton.mp h with rfl; exact h3.1
      · exact h1.1
      · cases h
      · exact h1.1
      · cases h
    · exact pawn_diag_check_pos h

theorem mem_rook_moves_check_pos {color : Color} {cells : Cells Figure}
    {sr sc : ℤ} {p : ℤ × ℤ} (h : p ∈ rook_moves color cells sr sc) :
    check_pos p.1 p.2 = true := by
  simp only [rook_moves, List.mem_flatten, List.mem_map] at h
  obtain ⟨l, ⟨d, -, rfl⟩, hp⟩ := h
  exact mem_slide_moves_check_pos hp

theorem mem_bishop_moves_check_pos {color : Color} {cells : Cells Figure}
    {sr sc : ℤ} {p : ℤ × ℤ} (h : p ∈ bishop_moves color cells sr sc) :
    check_pos p.1 p.2 = true := by
  simp only [bishop_moves, List.mem_flatten, List.mem_map] at h
  obtain ⟨l, ⟨d, -, rfl⟩, hp⟩ := h
  exact mem_slide_moves_check_pos hp

/-- Every destination produced by any chess piece class is on the
board. -/
theorem mem_fresh_moves_check_pos {color : Color} {k : Kind} {cells : Cells Figure}
    {sr sc : ℤ} {p : ℤ × ℤ} (h : p ∈ fresh_moves color k cells sr sc) :
    check_pos p.1 p.2 = true := by
  cases k with
  | Pawn => exact mem_pawn_moves_check_pos h
  | Rook => exact mem_rook_moves_check_pos h
  | Knight => exact mem_offset_moves h
  | Bishop => exact mem_bishop_moves_check_pos h
  | Queen =>
    rcases List.mem_append.mp h with h | h
    · exact mem_rook_moves_check_pos h
    · exact mem_bishop_moves_check_pos h
  | King => exact mem_offset_moves h
  | Mage => simp [fresh_moves] at h
  | Spearman => exact mem_offset_moves h
  | Demon => exact mem_offset_moves h

theorem mem_get_possible_moves_check_pos {f : Figure} {cells : Cells Figure}
    {sr sc : ℤ} {p : ℤ × ℤ} (h : p ∈ f.get_possible_moves cells sr sc) :
    check_pos p.1 p.2 = true := by
  rcases f with ⟨color, kind, power⟩
  cases kind <;>
    (simp only [Figure.get_possible_moves] at h; exact mem_fresh_moves_check_pos h)

theorem mem_checker_jump_moves {cells : Cells CFigure} {color : Color}
    {sr sc : ℤ} {p : ℤ × ℤ} (h : p ∈ checker_jump_moves cells color sr sc) :
    ∃ d ∈ checker_dirs, p = (sr + 2 * d.1, sc + 2 * d.2) ∧
      check_pos (sr + d.1) (sc + d.2) = true ∧
      (∃ q, get_figure cells (sr + d.1) (sc + d.2) = some q ∧ q.color ≠ color) ∧
      check_pos p.1 p.2 = true ∧ get_figure cells p.1 p.2 = none := by
  simp only [checker_jump_moves, List.mem_filterMap] at h
  obtain ⟨d, hd, ha⟩ := h
  by_cases hc : check_pos (sr + d.1) (sc + d.2) = true
  · rw [if_pos hc] at ha
    rcases hg : get_figure cells (sr + d.1) (sc + d.2) with - | t <;>
      simp only [hg] at ha
    · cases ha
    · by_cases ht : t.color ≠ color ∧ check_pos (sr + 2 * d.1) (sc + 2 * d.2) = true ∧
          get_figure cells (sr + 2 * d.1) (sc + 2 * d.2) = none
      · rw [if_pos ht] at ha
        cases ha
        exact ⟨d, hd, rfl, hc, ⟨t, hg, ht.1⟩, ht.2.1, ht.2.2⟩
      · rw [if_neg ht] at ha; cases ha
  · rw [if_neg hc] at ha; cases ha

theorem mem_checker_moves_check_pos {cells : Cells CFigure} {color : Color}
    {sr sc : ℤ} {is_killer : Bool} {p : ℤ × ℤ}
    (h : p ∈ Checker.get_possible_moves cells color sr sc is_killer) :
    check_pos p.1 p.2 = true := by
  simp only [Checker.get_possible_moves] at h
  split_ifs at h with h1 <;>
    first
      | (obtain ⟨d, -, -, -, -, hcp, -⟩ := mem_checker_jump_moves h; exact hcp)
      | (rcases List.mem_append.mp h with h | h
         · obtain ⟨d, -, -, -, -, hcp, -⟩ := mem_checker_jump_moves h
           exact hcp
         · simp only [List.mem_filterMap] at h
           obtain ⟨d, -, ha⟩ := h
           by_cases hc : check_pos (sr + d.1) (sc + d.2) = true
           · rw [if_pos hc] at ha; cases ha; exact hc
           · rw [if_neg hc] at ha; cases ha)

theorem mem_kc_slide_check_pos {cells : Cells CFigure} {color : Color}
    {dr dc : ℤ} {p : ℤ × ℤ} :
    ∀ {fuel : ℕ} {row col : ℤ},
      p ∈ kc_slide cells color row col dr dc fuel → check_pos p.1 p.2 = true := by
  intro fuel
  induction fuel with
  | zero => intro row col h; simp [kc_slide] at h
  | succ n ih =>
    intro row col h
    rw [kc_slide] at h
    by_cases hc : check_pos row col = true
    · rw [if_pos hc] at h
      rcases hg : get_figure cells row col with - | q <;> simp only [hg] at h
      · rcases List.mem_cons.mp h with rfl | h
        · exact hc
        · exact ih h
      · by_cases hq : q.color ≠ color
        · rw [if_pos hq] at h
          by_cases hj : check_pos (row + dr) (col + dc) = true ∧
              get_figure cells (row + dr) (col + dc) = none
          · rw [if_pos hj] at h
            rcases List.mem_singleton.mp h with rfl; exact hj.1
          · rw [if_neg hj] at h; cases h
        · rw [if_neg hq] at h; cases h
    · rw [if_neg hc] at h; cases h

theorem mem_c_get_possible_moves_check_pos {f : CFigure} {cells : Cells CFigure}
    {sr sc : ℤ} {is_killer : Bool} {p : ℤ × ℤ}
    (h : p ∈ f.get_possible_moves cells sr sc is_killer) :
    check_pos p.1 p.2 = true := by
  rcases f with ⟨color, ckind⟩
  cases ckind with
  | Checker => exact mem_checker_moves_check_pos h
  | KingChecker =>
    simp only [CFigure.get_possible_moves, KingChecker.get_possible_moves,
      List.mem_flatten, List.mem_map] at h
    obtain ⟨l, ⟨d, -, rfl⟩, hp⟩ := h
    exact mem_kc_slide_check_pos hp

/-- Boolean normal form of `Figure.is_valid_move`: on-board target,
no same-color piece on it, and membership in the destination set
unless the mover is a Mage. -/
theorem is_valid_move_eq (f : Figure) (cells : Cells Figure) (sr sc er ec : ℤ) :
    f.is_valid_move cells sr sc er ec =
      (check_pos er ec &&
        !(match get_figure cells er ec with
          | some t => decide (t.color = f.color)
          | none => false) &&
        (decide ((er, ec) ∈ f.get_possible_moves cells sr sc) ||
          decide (f.kind = .Mage))) := by
  rw [Figure.is_valid_move]
  by_cases hc : check_pos er ec = true
  · rw [if_neg (by simp [hc]), hc]
    rcases hg : get_figure cells er ec with - | t <;> simp only [hg]
    · by_cases hm : (er, ec) ∈ f.get_possible_moves cells sr sc <;>
        by_cases hk : f.kind = .Mage <;> simp [hm, hk]
    · by_cases hcol : t.color = f.color <;>
        by_cases hm : (er, ec) ∈ f.get_possible_moves cells sr sc <;>
          by_cases hk : f.kind = .Mage <;> simp [hcol, hm, hk]
  · simp only [Bool.not_eq_true] at hc
    rw [if_pos (by simp [hc]), hc]
    simp

/-- Facts guaranteed by a successful `Figure.is_valid_move`. -/
theorem is_valid_move_facts {f : Figure} {cells : Cells Figure} {sr sc er ec : ℤ}
    (h : f.is_valid_move cells sr sc er ec = true) :
    check_pos er ec = true ∧
    (∀ t, get_figure cells er ec = some t → t.color ≠ f.color) ∧
    ((er, ec) ∈ f.get_possible_moves cells sr sc ∨ f.kind = .Mage) := by
  rw [is_valid_move_eq] at h
  simp only [Bool.and_eq_true, Bool.or_eq_true, Bool.not_eq_true',
    decide_eq_true_eq] at h
  obtain ⟨⟨h1, h2⟩, h3⟩ := h
  refine ⟨h1, ?_, h3⟩
  intro t ht
  rw [ht] at h2
  simpa using h2

/-- Boolean normal form of `Checker.is_valid_move`. -/
theorem c_is_valid_move_eq (f : CFigure) (cells : Cells CFigure)
    (sr sc er ec : ℤ) (is_killer : Bool) :
    f.is_valid_move cells sr sc er ec is_killer =
      (check_pos er ec && decide (get_figure cells er ec = none) &&
        decide ((er, ec) ∈ f.get_possible_moves cells sr sc is_killer)) := by
  rw [CFigure.is_valid_move]
  by_cases hc : check_pos er ec = true
  · rw [if_neg (by simp [hc]), hc]
    by_cases hg : get_figure cells er ec = none
    · rw [if_neg (by simp [hg])]
      by_cases hm : (er, ec) ∈ f.get_possible_moves cells sr sc is_killer <;>
        simp [hg, hm]
    · rw [if_pos (by simp [hg])]
      simp [hg]
  · simp only [Bool.not_eq_true] at hc
    rw [if_pos (by simp [hc]), hc]
    simp

/-- Facts guaranteed by a successful `Checker.is_valid_move`. -/
theorem c_is_valid_move_facts {f : CFigure} {cells : Cells CFigure}
    {sr sc er ec : ℤ} {is_killer : Bool}
    (h : f.is_valid_move cells sr sc er ec is_killer = true) :
    check_pos er ec = true ∧ get_figure cells er ec = none ∧
    (er, ec) ∈ f.get_possible_moves cells sr sc is_killer := by
  rw [c_is_valid_move_eq] at h
  simp only [Bool.and_eq_true, decide_eq_true_eq] at h
  exact ⟨h.1.1, h.1.2, h.2⟩

/-- `Board.move_figure` leaves the grid untouched whenever it returns
the rejected signal. -/
theorem chess_move_rejected_eq {cells : Cells Figure} {sr sc er ec : ℤ}
    (h : (Board.move_figure cells sr sc er ec).2 = .rejected) :
    (Board.move_figure cells sr sc er ec).1 = cells := by
  rw [Board.move_figure] at h ⊢
  rcases hg : get_figure cells sr sc with - | figure
  · simp only [hg]
  · simp only [hg] at h ⊢
    by_cases hv : figure.is_valid_move cells sr sc er ec = true
    · rw [if_pos hv] at h; cases h
    · rw [if_neg hv]

/-- Unfolding of a successful `Board.move_figure`. -/
theorem chess_move_moved_spec {cells : Cells Figure} {sr sc er ec : ℤ}
    {cap : Option Figure}
    (h : (Board.move_figure cells sr sc er ec).2 = .moved cap) :
    ∃ fig, get_figure cells sr sc = some fig ∧
      fig.is_valid_move cells sr sc er ec = true ∧
      cap = get_figure cells er ec ∧
      (Board.move_figure cells sr sc er ec).1 =
        set_figure (set_figure cells er ec (some fig)) sr sc none := by
  rw [Board.move_figure] at h ⊢
  rcases hg : get_figure cells sr sc with - | figure
  · simp only [hg] at h; cases h
  · simp only [hg] at h ⊢
    by_cases hv : figure.is_valid_move cells sr sc er ec = true
    · rw [if_pos hv] at h ⊢
      cases h
      exact ⟨figure, rfl, hv, rfl, rfl⟩
    · rw [if_neg hv] at h; cases h

/-- `CheckersBoard.move_figure` leaves the grid untouched whenever it
returns the rejected signal. -/
theorem checkers_move_rejected_eq {cells : Cells CFigure} {sr sc er ec : ℤ}
    {is_killer : Bool}
    (h : (CheckersBoard.move_figure cells sr sc er ec is_killer).2 = .rejected) :
    (CheckersBoard.move_figure cells sr sc er ec is_killer).1 = cells := by
  rw [CheckersBoard.move_figure] at h ⊢
  rcases hg : get_figure cells sr sc with - | figure
  · simp only [hg]
  · simp only [hg] at h ⊢
    by_cases hv : figure.is_valid_move cells sr sc er ec is_killer = true
    · rw [if_pos hv] at h; cases h
    · rw [if_neg hv]

/-! ## Example boards used by witnesses and counterexamples -/

/-- An empty grid. -/
def empty_chess_cells : Cells Figure := fun _ _ => none

/-- A white Mage on a1-corner square (0,0) with a white Pawn beside it. -/
def mage_cells : Cells Figure := fun r c =>
  if r = 0 ∧ c = 0 then some ⟨.white, .Mage, .King⟩
  else if r = 0 ∧ c = 1 then some ⟨.white, .Pawn, .King⟩
  else none

/-! ## C2 -/

/-- C2, counterexample: it is not the case that every destination is
legal for a Mage.  On a board with a white Mage at (0,0) and a white
Pawn at (0,1), the Mage's move to the on-board square (0,1) is
rejected by `is_valid_move` because the destination holds a same-color
piece (and so is the degenerate move to its own square (0,0)). -/
theorem C2_counterexample :
    get_figure mage_cells 0 0 = some ⟨.white, .Mage, .King⟩ ∧
    check_pos 0 1 = true ∧
    (⟨.white, .Mage, .King⟩ : Figure).is_valid_move mage_cells 0 0 0 1 = false ∧
    (⟨.white, .Mage, .King⟩ : Figure).is_valid_move mage_cells 0 0 0 0 = false := by
  decide

/-- C2, amended: `is_valid_move` bypasses the destination-set
membership check for a Mage (and only that check): a Mage's move is
accepted exactly when the destination is on the board and does not
hold a same-color piece. -/
theorem C2_mage_bypasses_destination_set (f : Figure) (cells : Cells Figure)
    (sr sc er ec : ℤ) (h : f.kind = .Mage) :
    f.is_valid_move cells sr sc er ec =
      (check_pos er ec &&
        !(match get_figure cells er ec with
          | some t => decide (t.color = f.color)
          | none => false)) := by
  rw [is_valid_move_eq]
  simp [h]

/-- Witness for C2: the Mage at (0,0) moving to the empty square (3,7),
nowhere near any King-pattern or other destination set, is accepted. -/
theorem C2_witness :
    (⟨.white, .Mage, .King⟩ : Figure).kind = .Mage ∧
    (⟨.white, .Mage, .King⟩ : Figure).is_valid_move mage_cells 0 0 3 7 =
      (check_pos 3 7 &&
        !(match get_figure mage_cells 3 7 with
          | some t => decide (t.color = (⟨.white, .Mage, .King⟩ : Figure).color)
          | none => false)) :=
  ⟨rfl, C2_mage_bypasses_destination_set _ mage_cells 0 0 3 7 rfl⟩

/-! ## C4 -/

/-- C4, counterexample: an out-of-range coordinate request does not
always produce an empty destination set.  A Knight queried at the
off-board origin (8,1) of an empty board returns three on-board
destinations. -/
theorem C4_counterexample :
    check_pos 8 1 = false ∧
    (⟨.white, .Knight, .King⟩ : Figure).get_possible_moves empty_chess_cells 8 1 =
      [(6, 0), (6, 2), (7, 3)] := by
  decide

/-- C4, amended: `get_possible_moves` never raises and every
destination it returns is on the board (for every chess and checkers
piece kind), and `is_valid_move` returns `false` rather than raising
for an out-of-range destination, in both variants; but an out-of-range
origin close to the board may yield a non-empty destination set. -/
theorem C4_in_range_and_total :
    (∀ (f : Figure) (cells : Cells Figure) (sr sc : ℤ) (p : ℤ × ℤ),
      p ∈ f.get_possible_moves cells sr sc → check_pos p.1 p.2 = true) ∧
    (∀ (f : CFigure) (cells : Cells CFigure) (sr sc : ℤ) (is_killer : Bool)
      (p : ℤ × ℤ),
      p ∈ f.get_possible_moves cells sr sc is_killer → check_pos p.1 p.2 = true) ∧
    (∀ (f : Figure) (cells : Cells Figure) (sr sc er ec : ℤ),
      check_pos er ec = false → f.is_valid_move cells sr sc er ec = false) ∧
    (∀ (f : CFigure) (cells : Cells CFigure) (sr sc er ec : ℤ) (is_killer : Bool),
      check_pos er ec = false →
        f.is_valid_move cells sr sc er ec is_killer = false) :=
  ⟨fun f cells sr sc p h => mem_get_possible_moves_check_pos h,
   fun f cells sr sc is_killer p h => mem_c_get_possible_moves_check_pos h,
   fun f cells sr sc er ec h => by rw [is_valid_move_eq, h]; simp,
   fun f cells sr sc er ec is_killer h => by rw [c_is_valid_move_eq, h]; simp⟩

/-- Witness for C4: a Rook destination on the initial-like board is on
the board, and a move of a white Pawn to the off-board row -1 is
rejected rather than an error. -/
theorem C4_witness :
    ((1, 0) ∈ (⟨.white, .Rook, .King⟩ : Figure).get_possible_moves
        empty_chess_cells 0 0 ∧ check_pos 1 0 = true) ∧
    (check_pos (-1) 0 = false ∧
      (⟨.white, .Pawn, .King⟩ : Figure).is_valid_move mage_cells 0 0 (-1) 0 = false) :=
  ⟨⟨by decide, C4_in_range_and_total.1 ⟨.white, .Rook, .King⟩ empty_chess_cells 0 0
      (1, 0) (by decide)⟩,
   ⟨by decide, C4_in_range_and_total.2.2.1 ⟨.white, .Pawn, .King⟩ mage_cells 0 0
      (-1) 0 (by decide)⟩⟩

/-- Every square produced by the KingChecker scan lies on the ray from
its starting square along the scan direction. -/
theorem kc_slide_shape {cells : Cells CFigure} {color : Color} {dr dc : ℤ} :
    ∀ {fuel : ℕ} {row col : ℤ} {p : ℤ × ℤ},
      p ∈ kc_slide cells color row col dr dc fuel →
      ∃ k : ℕ, p.1 = row + k * dr ∧ p.2 = col + k * dc := by
  intro fuel
  induction fuel with
  | zero => intro row col p h; simp [kc_slide] at h
  | succ n ih =>
    intro row col p h
    rw [kc_slide] at h
    by_cases hc : check_pos row col = true
    · rw [if_pos hc] at h
      rcases hg : get_figure cells row col with - | q <;> simp only [hg] at h
      · rcases List.mem_cons.mp h with rfl | h
        · exact ⟨0, by simp⟩
        · obtain ⟨k, h1, h2⟩ := ih h
          refine ⟨k + 1, ?_, ?_⟩ <;> push_cast <;> [rw [h1]; rw [h2]] <;> ring
      · by_cases hq : q.color ≠ color
        · rw [if_pos hq] at h
          by_cases hj : check_pos (row + dr) (col + dc) = true ∧
              get_figure cells (row + dr) (col + dc) = none
          · rw [if_pos hj] at h
            rcases List.mem_singleton.mp h with rfl
            exact ⟨1, by push_cast; constructor <;> ring⟩
          · rw [if_neg hj] at h; cases h
        · rw [if_neg hq] at h; cases h
    · rw [if_neg hc] at h; cases h

/-- Every legal checkers destination lies on a diagonal ray from the
origin: it is `origin + k·d` for some direction `d` among the four
diagonals and some distance `k ≥ 1`. -/
theorem mem_c_moves_diag {f : CFigure} {cells : Cells CFigure} {sr sc : ℤ}
    {is_killer : Bool} {p : ℤ × ℤ}
    (h : p ∈ f.get_possible_moves cells sr sc is_killer) :
    ∃ d ∈ checker_dirs, ∃ k : ℕ, 1 ≤ k ∧
      p.1 = sr + k * d.1 ∧ p.2 = sc + k * d.2 := by
  rcases f with ⟨color, ckind⟩
  cases ckind with
  | Checker =>
    simp only [CFigure.get_possible_moves, Checker.get_possible_moves] at h
    have jump_case : ∀ {q : ℤ × ℤ}, q ∈ checker_jump_moves cells color sr sc →
        ∃ d ∈ checker_dirs, ∃ k : ℕ, 1 ≤ k ∧
          q.1 = sr + k * d.1 ∧ q.2 = sc + k * d.2 := by
      intro q hq
      obtain ⟨d, hd, rfl, -⟩ := mem_checker_jump_moves hq
      exact ⟨d, hd, 2, by norm_num, by push_cast; ring, by push_cast; ring⟩
    split_ifs at h with h1 <;>
      first
        | exact jump_case h
        | (rcases List.mem_append.mp h with h | h
           · exact jump_case h
           · simp only [List.mem_filterMap] at h
             obtain ⟨d, hd, ha⟩ := h
             by_cases hc : check_pos (sr + d.1) (sc + d.2) = true
             · rw [if_pos hc] at ha
               cases ha
               refine ⟨d, ?_, 1, le_refl 1, by push_cast; ring, by push_cast; ring⟩
               cases color <;> simp_all [checker_dirs] <;> tauto
             · rw [if_neg hc] at ha; cases ha)
  | KingChecker =>
    simp only [CFigure.get_possible_moves, KingChecker.get_possible_moves,
      List.mem_flatten, List.mem_map] at h
    obtain ⟨l, ⟨d, hd, rfl⟩, hp⟩ := h
    obtain ⟨k, h1, h2⟩ := kc_slide_shape hp
    refine ⟨d, hd, k + 1, Nat.le_add_left 1 k, ?_, ?_⟩ <;> push_cast <;>
      [rw [h1]; rw [h2]] <;> ring

theorem py_idx_of_nonneg {i : ℤ} (h : 0 ≤ i) : py_idx i = i := if_neg (by omega)

theorem check_pos_iff {r c : ℤ} :
    check_pos r c = true ↔ 0 ≤ r ∧ r < 8 ∧ 0 ≤ c ∧ c < 8 := by
  simp [check_pos]

/-- `get_figure` after `set_figure`, specialised to in-range
coordinates, where Python indexing is plain indexing. -/
theorem get_set_in_range {α : Type} (cells : Cells α) {r c : ℤ} (r' c' : ℤ)
    (v : Option α) (h1 : 0 ≤ r ∧ r < 8 ∧ 0 ≤ c ∧ c < 8)
    (h2 : 0 ≤ r' ∧ r' < 8 ∧ 0 ≤ c' ∧ c' < 8) :
    get_figure (set_figure cells r c v) r' c' =
      if r' = r ∧ c' = c then v else get_figure cells r' c' := by
  rw [get_set_figure _ _ _ _ _ _ ⟨by omega, by omega, by omega, by omega⟩,
    py_idx_of_nonneg (show (0:ℤ) ≤ r' by omega),
    py_idx_of_nonneg (show (0:ℤ) ≤ r by omega),
    py_idx_of_nonneg (show (0:ℤ) ≤ c' by omega),
    py_idx_of_nonneg (show (0:ℤ) ≤ c by omega)]

/-- Unfolding of a successful `CheckersBoard.move_figure`. -/
theorem checkers_move_moved_spec {cells : Cells CFigure} {sr sc er ec : ℤ}
    {is_killer : Bool} {cap : Option CFigure}
    (h : (CheckersBoard.move_figure cells sr sc er ec is_killer).2 = .moved cap) :
    ∃ fig, get_figure cells sr sc = some fig ∧
      fig.is_valid_move cells sr sc er ec is_killer = true ∧
      cap = (if |er - sr| ≥ 2 then
        get_figure cells (er - if er - sr > 0 then 1 else -1)
          (ec - if ec - sc > 0 then 1 else -1) else none) ∧
      (CheckersBoard.move_figure cells sr sc er ec is_killer).1 =
        (let dr : ℤ := if er - sr > 0 then 1 else -1
         let dc : ℤ := if ec - sc > 0 then 1 else -1
         let cells1 := if |er - sr| ≥ 2 then
           set_figure cells (er - dr) (ec - dc) none else cells
         let cells2 := set_figure cells1 er ec (some fig)
         let cells3 := set_figure cells2 sr sc none
         if (fig.color = .white ∧ er = 0) ∨ (fig.color = .black ∧ er = 7) then
           set_figure cells3 er ec (some ⟨fig.color, .KingChecker⟩)
         else cells3) := by
  rw [CheckersBoard.move_figure] at h ⊢
  rcases hg : get_figure cells sr sc with - | figure
  · simp only [hg] at h; cases h
  · simp only [hg] at h ⊢
    by_cases hv : figure.is_valid_move cells sr sc er ec is_killer = true
    · rw [if_pos hv] at h ⊢
      cases h
      exact ⟨figure, rfl, hv, rfl, rfl⟩
    · rw [if_neg hv] at h; cases h

/-- Full-commit description of a successful chess `Board.move_figure`:
the mover lands on the destination, the origin is cleared, the
returned capture is the prior occupant of the destination, and no
other square changes. -/
theorem chess_commit_spec {cells : Cells Figure} {sr sc er ec : ℤ} {fig : Figure}
    {cap : Option Figure} (hsr : 0 ≤ sr ∧ sr < 8 ∧ 0 ≤ sc ∧ sc < 8)
    (hg : get_figure cells sr sc = some fig)
    (hmv : (Board.move_figure cells sr sc er ec).2 = .moved cap) :
    cap = get_figure cells er ec ∧
    get_figure (Board.move_figure cells sr sc er ec).1 er ec = some fig ∧
    get_figure (Board.move_figure cells sr sc er ec).1 sr sc = none ∧
    (∀ r c : ℤ, 0 ≤ r → r < 8 → 0 ≤ c → c < 8 →
      ¬(r = sr ∧ c = sc) → ¬(r = er ∧ c = ec) →
      get_figure (Board.move_figure cells sr sc er ec).1 r c =
        get_figure cells r c) := by
  obtain ⟨fig', hg', hv, hcap, hcells⟩ := chess_move_moved_spec hmv
  have hfe : fig' = fig := by rw [hg] at hg'; exact (Option.some.inj hg').symm
  subst hfe
  obtain ⟨hcp, hcol, -⟩ := is_valid_move_facts hv
  have her := check_pos_iff.mp hcp
  have hne : ¬(er = sr ∧ ec = sc) := by
    rintro ⟨h1, h2⟩
    rw [h1, h2] at hcol
    exact hcol fig' hg rfl
  refine ⟨hcap, ?_, ?_, ?_⟩
  · rw [hcells, get_set_in_range _ _ _ _ ⟨hsr.1, hsr.2.1, hsr.2.2.1, hsr.2.2.2⟩
      ⟨her.1, her.2.1, her.2.2.1, her.2.2.2⟩, if_neg hne,
      get_set_in_range _ _ _ _ ⟨her.1, her.2.1, her.2.2.1, her.2.2.2⟩
      ⟨her.1, her.2.1, her.2.2.1, her.2.2.2⟩, if_pos ⟨rfl, rfl⟩]
  · rw [hcells, get_set_in_range _ _ _ _ ⟨hsr.1, hsr.2.1, hsr.2.2.1, hsr.2.2.2⟩
      ⟨hsr.1, hsr.2.1, hsr.2.2.1, hsr.2.2.2⟩, if_pos ⟨rfl, rfl⟩]
  · intro r c h1 h2 h3 h4 hne1 hne2
    rw [hcells, get_set_in_range _ _ _ _ ⟨hsr.1, hsr.2.1, hsr.2.2.1, hsr.2.2.2⟩
      ⟨h1, h2, h3, h4⟩, if_neg hne1,
      get_set_in_range _ _ _ _ ⟨her.1, her.2.1, her.2.2.1, her.2.2.2⟩
      ⟨h1, h2, h3, h4⟩, if_neg hne2]

/-- Full-commit description of a successful `CheckersBoard.move_figure`:
the mover (promoted on the far row) lands on the destination, the
origin is cleared, on a jump the jumped-over square is cleared and its
prior occupant returned, and no other square changes. -/
theorem checkers_commit_spec {cells : Cells CFigure} {sr sc er ec : ℤ}
    {is_killer : Bool} {fig : CFigure} {cap : Option CFigure}
    (hsr : 0 ≤ sr ∧ sr < 8 ∧ 0 ≤ sc ∧ sc < 8)
    (hg : get_figure cells sr sc = some fig)
    (hmv : (CheckersBoard.move_figure cells sr sc er ec is_killer).2 = .moved cap) :
    get_figure (CheckersBoard.move_figure cells sr sc er ec is_killer).1 er ec =
      some (if (fig.color = .white ∧ er = 0) ∨ (fig.color = .black ∧ er = 7) then
        (⟨fig.color, .KingChecker⟩ : CFigure) else fig) ∧
    get_figure (CheckersBoard.move_figure cells sr sc er ec is_killer).1 sr sc
      = none ∧
    (|er - sr| ≥ 2 →
      cap = get_figure cells (er - if er - sr > 0 then 1 else -1)
        (ec - if ec - sc > 0 then 1 else -1) ∧
      get_figure (CheckersBoard.move_figure cells sr sc er ec is_killer).1
        (er - if er - sr > 0 then 1 else -1)
        (ec - if ec - sc > 0 then 1 else -1) = none) ∧
    (|er - sr| < 2 → cap = none) ∧
    (∀ r c : ℤ, 0 ≤ r → r < 8 → 0 ≤ c → c < 8 →
      ¬(r = sr ∧ c = sc) → ¬(r = er ∧ c = ec) →
      ¬(|er - sr| ≥ 2 ∧ r = er - (if er - sr > 0 then 1 else -1) ∧
        c = ec - (if ec - sc > 0 then 1 else -1)) →
      get_figure (CheckersBoard.move_figure cells sr sc er ec is_killer).1 r c =
        get_figure cells r c) := by
  obtain ⟨fig', hg', hv, hcap, hcells⟩ := checkers_move_moved_spec hmv
  have hfe : fig = fig' := by rw [hg] at hg'; exact Option.some.inj hg'
  subst hfe
  obtain ⟨hcp, hempty, hmem⟩ := c_is_valid_move_facts hv
  have her := check_pos_iff.mp hcp
  have hne : ¬(er = sr ∧ ec = sc) := by
    rintro ⟨h1, h2⟩
    rw [h1, h2, hg] at hempty
    cases hempty
  have hne' : ¬(sr = er ∧ sc = ec) := fun h => hne ⟨h.1.symm, h.2.symm⟩
  obtain ⟨d, hd, k, hk1, hkr, hkc⟩ := mem_c_moves_diag hmem
  replace hkr : er = sr + (k:ℤ) * d.1 := hkr
  replace hkc : ec = sc + (k:ℤ) * d.2 := hkc
  simp only [checker_dirs, List.mem_cons, List.mem_singleton,
    List.not_mem_nil, or_false] at hd
  -- Arithmetic consequences of the diagonal shape of the move.
  have harith :
      (if er - sr > 0 then (1:ℤ) else -1) = d.1 ∧
      (if ec - sc > 0 then (1:ℤ) else -1) = d.2 ∧
      (|er - sr| ≥ 2 ↔ 2 ≤ k) ∧
      (2 ≤ k →
        (0 ≤ er - d.1 ∧ er - d.1 < 8 ∧ 0 ≤ ec - d.2 ∧ ec - d.2 < 8) ∧
        ¬(er - d.1 = sr ∧ ec - d.2 = sc) ∧ ¬(er - d.1 = er ∧ ec - d.2 = ec)) := by
    have hk0 : 1 ≤ (k:ℤ) := by exact_mod_cast hk1
    rw [Int.abs_eq_natAbs]
    rcases hd with rfl | rfl | rfl | rfl <;> dsimp only at hkr hkc ⊢ <;>
      refine ⟨by split_ifs with h <;> omega, by split_ifs with h <;> omega,
        by constructor <;> (intro hx; omega), ?_⟩ <;>
      (intro hx
       refine ⟨⟨by omega, by omega, by omega, by omega⟩, ?_, by omega⟩
       rintro ⟨ha, hb⟩; omega)
  obtain ⟨hdr, hdc, hjk, hmid⟩ := harith
  rw [hcells, hdr, hdc]
  dsimp only
  constructor
  · -- destination square
    by_cases hpromo : (fig.color = .white ∧ er = 0) ∨ (fig.color = .black ∧ er = 7)
    · rw [if_pos hpromo, if_pos hpromo,
        get_set_in_range _ _ _ _ ⟨her.1, her.2.1, her.2.2.1, her.2.2.2⟩
          ⟨her.1, her.2.1, her.2.2.1, her.2.2.2⟩, if_pos ⟨rfl, rfl⟩]
    · rw [if_neg hpromo, if_neg hpromo,
        get_set_in_range _ _ _ _ ⟨hsr.1, hsr.2.1, hsr.2.2.1, hsr.2.2.2⟩
          ⟨her.1, her.2.1, her.2.2.1, her.2.2.2⟩, if_neg hne,
        get_set_in_range _ _ _ _ ⟨her.1, her.2.1, her.2.2.1, her.2.2.2⟩
          ⟨her.1, her.2.1, her.2.2.1, her.2.2.2⟩, if_pos ⟨rfl, rfl⟩]
  constructor
  · -- origin square
    by_cases hpromo : (fig.color = .white ∧ er = 0) ∨ (fig.color = .black ∧ er = 7)
    · rw [if_pos hpromo,
        get_set_in_range _ _ _ _ ⟨her.1, her.2.1, her.2.2.1, her.2.2.2⟩
          ⟨hsr.1, hsr.2.1, hsr.2.2.1, hsr.2.2.2⟩, if_neg hne',
        get_set_in_range _ _ _ _ ⟨hsr.1, hsr.2.1, hsr.2.2.1, hsr.2.2.2⟩
          ⟨hsr.1, hsr.2.1, hsr.2.2.1, hsr.2.2.2⟩, if_pos ⟨rfl, rfl⟩]
    · rw [if_neg hpromo,
        get_set_in_range _ _ _ _ ⟨hsr.1, hsr.2.1, hsr.2.2.1, hsr.2.2.2⟩
          ⟨hsr.1, hsr.2.1, hsr.2.2.1, hsr.2.2.2⟩, if_pos ⟨rfl, rfl⟩]
  constructor
  · -- jumped-over square
    intro hjump
    have hk2 : 2 ≤ k := hjk.mp hjump
    obtain ⟨hmr, hmne1, hmne2⟩ := hmid hk2
    rw [if_pos hjump] at hcap
    rw [hdr, hdc] at hcap
    refine ⟨hcap, ?_⟩
    rw [if_pos hjump]
    by_cases hpromo : (fig.color = .white ∧ er = 0) ∨ (fig.color = .black ∧ er = 7)
    · rw [if_pos hpromo,
        get_set_in_range _ _ _ _ ⟨her.1, her.2.1, her.2.2.1, her.2.2.2⟩
          ⟨hmr.1, hmr.2.1, hmr.2.2.1, hmr.2.2.2⟩, if_neg hmne2,
        get_set_in_range _ _ _ _ ⟨hsr.1, hsr.2.1, hsr.2.2.1, hsr.2.2.2⟩
          ⟨hmr.1, hmr.2.1, hmr.2.2.1, hmr.2.2.2⟩, if_neg hmne1,
        get_set_in_range _ _ _ _ ⟨her.1, her.2.1, her.2.2.1, her.2.2.2⟩
          ⟨hmr.1, hmr.2.1, hmr.2.2.1, hmr.2.2.2⟩, if_neg hmne2,
        get_set_in_range _ _ _ _ ⟨hmr.1, hmr.2.1, hmr.2.2.1, hmr.2.2.2⟩
          ⟨hmr.1, hmr.2.1, hmr.2.2.1, hmr.2.2.2⟩, if_pos ⟨rfl, rfl⟩]
    · rw [if_neg hpromo,
        get_set_in_range _ _ _ _ ⟨hsr.1, hsr.2.1, hsr.2.2.1, hsr.2.2.2⟩
          ⟨hmr.1, hmr.2.1, hmr.2.2.1, hmr.2.2.2⟩, if_neg hmne1,
        get_set_in_range _ _ _ _ ⟨her.1, her.2.1, her.2.2.1, her.2.2.2⟩
          ⟨hmr.1, hmr.2.1, hmr.2.2.1, hmr.2.2.2⟩, if_neg hmne2,
        get_set_in_range _ _ _ _ ⟨hmr.1, hmr.2.1, hmr.2.2.1, hmr.2.2.2⟩
          ⟨hmr.1, hmr.2.1, hmr.2.2.1, hmr.2.2.2⟩, if_pos ⟨rfl, rfl⟩]
  constructor
  · -- no capture on a plain step
    intro hlt
    rw [if_neg (not_le.mpr hlt)] at hcap
    exact hcap
  · -- all other squares are untouched
    intro r c h1 h2 h3 h4 hne1 hne2 hne3
    by_cases hjump : |er - sr| ≥ 2
    · have hk2 : 2 ≤ k := hjk.mp hjump
      obtain ⟨hmr, -, -⟩ := hmid hk2
      have hne3' : ¬(r = er - d.1 ∧ c = ec - d.2) := fun hm => hne3 ⟨hjump, hm⟩
      rw [if_pos hjump]
      by_cases hpromo : (fig.color = .white ∧ er = 0) ∨ (fig.color = .black ∧ er = 7)
      · rw [if_pos hpromo,
          get_set_in_range _ _ _ _ ⟨her.1, her.2.1, her.2.2.1, her.2.2.2⟩
            ⟨h1, h2, h3, h4⟩, if_neg hne2,
          get_set_in_range _ _ _ _ ⟨hsr.1, hsr.2.1, hsr.2.2.1, hsr.2.2.2⟩
            ⟨h1, h2, h3, h4⟩, if_neg hne1,
          get_set_in_range _ _ _ _ ⟨her.1, her.2.1, her.2.2.1, her.2.2.2⟩
            ⟨h1, h2, h3, h4⟩, if_neg hne2,
          get_set_in_range _ _ _ _ ⟨hmr.1, hmr.2.1, hmr.2.2.1, hmr.2.2.2⟩
            ⟨h1, h2, h3, h4⟩, if_neg hne3']
      · rw [if_neg hpromo,
          get_set_in_range _ _ _ _ ⟨hsr.1, hsr.2.1, hsr.2.2.1, hsr.2.2.2⟩
            ⟨h1, h2, h3, h4⟩, if_neg hne1,
          get_set_in_range _ _ _ _ ⟨her.1, her.2.1, her.2.2.1, her.2.2.2⟩
            ⟨h1, h2, h3, h4⟩, if_neg hne2,
          get_set_in_range _ _ _ _ ⟨hmr.1, hmr.2.1, hmr.2.2.1, hmr.2.2.2⟩
            ⟨h1, h2, h3, h4⟩, if_neg hne3']
    · rw [if_neg hjump]
      by_cases hpromo : (fig.color = .white ∧ er = 0) ∨ (fig.color = .black ∧ er = 7)
      · rw [if_pos hpromo,
          get_set_in_range _ _ _ _ ⟨her.1, her.2.1, her.2.2.1, her.2.2.2⟩
            ⟨h1, h2, h3, h4⟩, if_neg hne2,
          get_set_in_range _ _ _ _ ⟨hsr.1, hsr.2.1, hsr.2.2.1, hsr.2.2.2⟩
            ⟨h1, h2, h3, h4⟩, if_neg hne1,
          get_set_in_range _ _ _ _ ⟨her.1, her.2.1, her.2.2.1, her.2.2.2⟩
            ⟨h1, h2, h3, h4⟩, if_neg hne2]
      · rw [if_neg hpromo,
          get_set_in_range _ _ _ _ ⟨hsr.1, hsr.2.1, hsr.2.2.1, hsr.2.2.2⟩
            ⟨h1, h2, h3, h4⟩, if_neg hne1,
          get_set_in_range _ _ _ _ ⟨her.1, her.2.1, her.2.2.1, her.2.2.2⟩
            ⟨h1, h2, h3, h4⟩, if_neg hne2]

/-! ## C9 -/

/-- C9: `move_figure` is atomic in both variants.  Whenever it returns
the rejected signal the grid equals its state before the call, and on
success it fully commits: the mover (promoted in checkers on the far
row) sits on the destination, the origin is cleared, on a checkers
jump the jumped-over square is cleared and its occupant returned as
the capture, and every other square is unchanged. -/
theorem C9_applyMove_atomic :
    (∀ (cells : Cells Figure) (sr sc er ec : ℤ),
      (Board.move_figure cells sr sc er ec).2 = .rejected →
      (Board.move_figure cells sr sc er ec).1 = cells) ∧
    (∀ (cells : Cells CFigure) (sr sc er ec : ℤ) (is_killer : Bool),
      (CheckersBoard.move_figure cells sr sc er ec is_killer).2 = .rejected →
      (CheckersBoard.move_figure cells sr sc er ec is_killer).1 = cells) ∧
    (∀ (cells : Cells Figure) (sr sc er ec : ℤ) (fig : Figure)
      (cap : Option Figure),
      0 ≤ sr ∧ sr < 8 ∧ 0 ≤ sc ∧ sc < 8 →
      get_figure cells sr sc = some fig →
      (Board.move_figure cells sr sc er ec).2 = .moved cap →
      cap = get_figure cells er ec ∧
      get_figure (Board.move_figure cells sr sc er ec).1 er ec = some fig ∧
      get_figure (Board.move_figure cells sr sc er ec).1 sr sc = none ∧
      (∀ r c : ℤ, 0 ≤ r → r < 8 → 0 ≤ c → c < 8 →
        ¬(r = sr ∧ c = sc) → ¬(r = er ∧ c = ec) →
        get_figure (Board.move_figure cells sr sc er ec).1 r c =
          get_figure cells r c)) ∧
    (∀ (cells : Cells CFigure) (sr sc er ec : ℤ) (is_killer : Bool)
      (fig : CFigure) (cap : Option CFigure),
      0 ≤ sr ∧ sr < 8 ∧ 0 ≤ sc ∧ sc < 8 →
      get_figure cells sr sc = some fig →
      (CheckersBoard.move_figure cells sr sc er ec is_killer).2 = .moved cap →
      get_figure (CheckersBoard.move_figure cells sr sc er ec is_killer).1 er ec =
        some (if (fig.color = .white ∧ er = 0) ∨ (fig.color = .black ∧ er = 7)
          then (⟨fig.color, .KingChecker⟩ : CFigure) else fig) ∧
      get_figure (CheckersBoard.move_figure cells sr sc er ec is_killer).1 sr sc
        = none ∧
      (|er - sr| ≥ 2 →
        cap = get_figure cells (er - if er - sr > 0 then 1 else -1)
          (ec - if ec - sc > 0 then 1 else -1) ∧
        get_figure (CheckersBoard.move_figure cells sr sc er ec is_killer).1
          (er - if er - sr > 0 then 1 else -1)
          (ec - if ec - sc > 0 then 1 else -1) = none) ∧
      (|er - sr| < 2 → cap = none) ∧
      (∀ r c : ℤ, 0 ≤ r → r < 8 → 0 ≤ c → c < 8 →
        ¬(r = sr ∧ c = sc) → ¬(r = er ∧ c = ec) →
        ¬(|er - sr| ≥ 2 ∧ r = er - (if er - sr > 0 then 1 else -1) ∧
          c = ec - (if ec - sc > 0 then 1 else -1)) →
        get_figure (CheckersBoard.move_figure cells sr sc er ec is_killer).1 r c =
          get_figure cells r c)) :=
  ⟨fun cells sr sc er ec h => chess_move_rejected_eq h,
   fun cells sr sc er ec is_killer h => checkers_move_rejected_eq h,
   fun cells sr sc er ec fig cap hb hg hmv => chess_commit_spec hb hg hmv,
   fun cells sr sc er ec is_killer fig cap hb hg hmv =>
     checkers_commit_spec hb hg hmv⟩

/-- Witness for C9: a rejected chess move (Mage onto its own Pawn)
leaves the grid unchanged, and a committed checkers opening step
relocates the checker with no capture. -/
theorem C9_witness :
    ((Board.move_figure mage_cells 0 0 0 1).2 = .rejected ∧
      (Board.move_figure mage_cells 0 0 0 1).1 = mage_cells) ∧
    ((CheckersBoard.move_figure checkers_initial_cells 5 0 4 1 false).2 =
        .moved none ∧
      get_figure (CheckersBoard.move_figure checkers_initial_cells 5 0 4 1 false).1
        4 1 = some ⟨.white, .Checker⟩ ∧
      get_figure (CheckersBoard.move_figure checkers_initial_cells 5 0 4 1 false).1
        5 0 = none) :=
  ⟨⟨by decide, C9_applyMove_atomic.1 mage_cells 0 0 0 1 (by decide)⟩,
   ⟨by decide,
    by
      have h := C9_applyMove_atomic.2.2.2 checkers_initial_cells 5 0 4 1 false
        ⟨.white, .Checker⟩ none (by decide) (by decide) (by decide)
      have h1 := h.1
      rw [if_neg (by decide)] at h1
      exact h1,
    (C9_applyMove_atomic.2.2.2 checkers_initial_cells 5 0 4 1 false
      ⟨.white, .Checker⟩ none (by decide) (by decide) (by decide)).2.1⟩⟩

/-! ## C5 -/

/-- C5: the Demon's movement capability.  A Demon as constructed
(`power = King`) produces exactly the King movement pattern; its
`get_possible_moves` delegates on every call to the movement pattern
of whatever kind its current `power` names (a pure function of the
current `power`, so the delegation is re-evaluated and never cached);
and immediately after a Demon's capturing move the controller sets the
power of the Demon now sitting on the destination square to the kind
of the piece just captured. -/
theorem C5_demon_delegation :
    (∀ (c : Color) (cells : Cells Figure) (sr sc : ℤ),
      (Figure.mk c .Demon .King).get_possible_moves cells sr sc =
        king_moves c cells sr sc) ∧
    (∀ (c : Color) (p : Kind) (cells : Cells Figure) (sr sc : ℤ),
      (Figure.mk c .Demon p).get_possible_moves cells sr sc =
        fresh_moves c p cells sr sc) ∧
    (∀ (g : GameState) (sr sc er ec : ℤ) (fig cf : Figure),
      get_figure g.cells sr sc = some fig →
      fig.kind = .Demon →
      (Board.move_figure g.cells sr sc er ec).2 = .moved (some cf) →
      get_figure (Game.play_step g (.move sr sc er ec)).1.cells er ec =
        some ⟨fig.color, .Demon, cf.kind⟩) := by
  refine ⟨fun c cells sr sc => rfl, fun c p cells sr sc => rfl, ?_⟩
  intro g sr sc er ec fig cf hg hk hmv
  obtain ⟨fig', hg', hv, -, -⟩ := chess_move_moved_spec hmv
  have hfe : fig = fig' := by rw [hg] at hg'; exact Option.some.inj hg'
  subst hfe
  have her := check_pos_iff.mp (is_valid_move_facts hv).1
  simp only [Game.play_step, hg, hmv]
  rw [if_pos hk]
  have hget : get_figure (set_figure (Board.move_figure g.cells sr sc er ec).1
      er ec (some { fig with power := cf.kind })) er ec =
      some { fig with power := cf.kind } := by
    rw [get_set_in_range _ _ _ _ ⟨her.1, her.2.1, her.2.2.1, her.2.2.2⟩
      ⟨her.1, her.2.1, her.2.2.1, her.2.2.2⟩, if_pos ⟨rfl, rfl⟩]
  by_cases hkk : cf.kind = .King
  · rw [if_pos hkk]
    dsimp only
    rw [hget]
    rcases fig with ⟨c0, k0, p0⟩
    cases hk
    rfl
  · rw [if_neg hkk]
    dsimp only
    rw [hget]
    rcases fig with ⟨c0, k0, p0⟩
    cases hk
    rfl

/-- Witness for C5: in a game with a white Demon at (4,4) and a black
Rook at (4,5), the Demon captures the Rook and the Demon on (4,5) now
has Rook power. -/
theorem C5_witness :
    get_figure (⟨(fun r c =>
        if r = 4 ∧ c = 4 then some ⟨.white, .Demon, .King⟩
        else if r = 4 ∧ c = 5 then some ⟨.black, .Rook, .King⟩
        else none : Cells Figure), .white, 1, []⟩ : GameState).cells 4 4 =
      some ⟨.white, .Demon, .King⟩ ∧
    get_figure (Game.play_step (⟨(fun r c =>
        if r = 4 ∧ c = 4 then some ⟨.white, .Demon, .King⟩
        else if r = 4 ∧ c = 5 then some ⟨.black, .Rook, .King⟩
        else none : Cells Figure), .white, 1, []⟩ : GameState)
        (.move 4 4 4 5)).1.cells 4 5 = some ⟨.white, .Demon, .Rook⟩ :=
  ⟨by decide,
   C5_demon_delegation.2.2 _ 4 4 4 5 ⟨.white, .Demon, .King⟩ ⟨.black, .Rook, .King⟩
     (by decide) rfl (by decide)⟩

/-! ## C8 -/

/-- C8: the moment `move_figure` reports a captured King, `Game.play`
declares the pre-switch `current_turn` the winner (the turn does not
switch) and the loop halts: any further inputs are never consumed. -/
theorem C8_king_capture_halts (g : GameState) (sr sc er ec : ℤ) (fig cf : Figure)
    (rest : List PlayInput)
    (hg : get_figure g.cells sr sc = some fig)
    (hmv : (Board.move_figure g.cells sr sc er ec).2 = .moved (some cf))
    (hkk : cf.kind = .King) :
    (Game.play_step g (.move sr sc er ec)).2 = some g.current_turn ∧
    (Game.play_step g (.move sr sc er ec)).1.current_turn = g.current_turn ∧
    Game.run_loop g (.move sr sc er ec :: rest) =
      ((Game.play_step g (.move sr sc er ec)).1, some g.current_turn) := by
  have hstep : (Game.play_step g (.move sr sc er ec)).2 = some g.current_turn ∧
      (Game.play_step g (.move sr sc er ec)).1.current_turn = g.current_turn := by
    simp only [Game.play_step, hg, hmv]
    rw [if_pos hkk]
    by_cases hd : fig.kind = .Demon
    · rw [if_pos hd]; exact ⟨rfl, rfl⟩
    · rw [if_neg hd]; exact ⟨rfl, rfl⟩
  refine ⟨hstep.1, hstep.2, ?_⟩
  rw [Game.run_loop]
  simp only [hstep.1]

/-- Witness for C8: white captures the black King with a Rook; white is
declared winner with the turn unswitched and the remaining input list
is never consumed. -/
theorem C8_witness :
    (Game.play_step (⟨(fun r c =>
        if r = 0 ∧ c = 0 then some ⟨.white, .Rook, .King⟩
        else if r = 0 ∧ c = 3 then some ⟨.black, .King, .King⟩
        else none : Cells Figure), .white, 1, []⟩ : GameState)
      (.move 0 0 0 3)).2 = some .white ∧
    (Game.play_step (⟨(fun r c =>
        if r = 0 ∧ c = 0 then some ⟨.white, .Rook, .King⟩
        else if r = 0 ∧ c = 3 then some ⟨.black, .King, .King⟩
        else none : Cells Figure), .white, 1, []⟩ : GameState)
      (.move 0 0 0 3)).1.current_turn = .white ∧
    Game.run_loop (⟨(fun r c =>
        if r = 0 ∧ c = 0 then some ⟨.white, .Rook, .King⟩
        else if r = 0 ∧ c = 3 then some ⟨.black, .King, .King⟩
        else none : Cells Figure), .white, 1, []⟩ : GameState)
      (.move 0 0 0 3 :: [.move 0 3 0 0]) =
      ((Game.play_step (⟨(fun r c =>
        if r = 0 ∧ c = 0 then some ⟨.white, .Rook, .King⟩
        else if r = 0 ∧ c = 3 then some ⟨.black, .King, .King⟩
        else none : Cells Figure), .white, 1, []⟩ : GameState)
        (.move 0 0 0 3)).1, some .white) :=
  C8_king_capture_halts _ 0 0 0 3 ⟨.white, .Rook, .King⟩ ⟨.black, .King, .King⟩
    [.move 0 3 0 0] (by decide) (by decide) rfl

/-! ## C1 -/

/-- A game with a white Demon at (4,4) facing a black Rook at (4,5). -/
def demon_game : GameState :=
  ⟨(fun r c =>
    if r = 4 ∧ c = 4 then some ⟨.white, .Demon, .King⟩
    else if r = 4 ∧ c = 5 then some ⟨.black, .Rook, .King⟩
    else none : Cells Figure), .white, 1, []⟩

/-- C1, counterexample: apply-then-undo is not always the identity.
After the white Demon captures the black Rook, `undo_move` puts the
Demon back on its origin and the Rook back on its square, but the
Demon comes back with `power = Rook`: the controller's power mutation
is not reverted, so the resulting state differs from the original. -/
theorem C1_counterexample :
    (Game.undo_move (Game.play_step demon_game (.move 4 4 4 5)).1).cells 4 4 =
      some ⟨.white, .Demon, .Rook⟩ ∧
    demon_game.cells 4 4 = some ⟨.white, .Demon, .King⟩ ∧
    Game.undo_move (Game.play_step demon_game (.move 4 4 4 5)).1 ≠ demon_game := by
  have h1 : (Game.undo_move (Game.play_step demon_game (.move 4 4 4 5)).1).cells 4 4 =
      some ⟨.white, .Demon, .Rook⟩ := by decide
  have h2 : demon_game.cells 4 4 = some ⟨.white, .Demon, .King⟩ := by decide
  refine ⟨h1, h2, fun h => ?_⟩
  have h3 := congrArg (fun s => s.cells 4 4) h
  simp only at h3
  rw [h1, h2] at h3
  exact absurd h3 (by decide)

/-- C1, amended: applying a move that `move_figure` accepts and then
undoing it restores the exact prior state (grid, `current_turn`,
`move_count`, undo log), provided the game goes on (the captured
piece, if any, is not a King — after a King capture the loop halts
before `undo` is reachable) and the move is not a capture by a Demon —
a Demon capture mutates the Demon's `power`, which `undo_move` does
not revert. -/
theorem C1_undo_after_apply (g : GameState) (sr sc er ec : ℤ) (fig : Figure)
    (cap : Option Figure)
    (hb : 0 ≤ sr ∧ sr < 8 ∧ 0 ≤ sc ∧ sc < 8)
    (hg : get_figure g.cells sr sc = some fig)
    (hmv : (Board.move_figure g.cells sr sc er ec).2 = .moved cap)
    (hking : ∀ q, cap = some q → q.kind ≠ .King)
    (hdemon : ¬(fig.kind = .Demon ∧ cap ≠ none)) :
    Game.undo_move (Game.play_step g (.move sr sc er ec)).1 = g := by
  obtain ⟨fig', hg', hv, hcap, hcells⟩ := chess_move_moved_spec hmv
  have hfe : fig = fig' := by rw [hg] at hg'; exact Option.some.inj hg'
  subst hfe
  obtain ⟨-, hdest, -, -⟩ := chess_commit_spec hb hg hmv
  obtain ⟨hcp, hcol, -⟩ := is_valid_move_facts hv
  have her := check_pos_iff.mp hcp
  have hcpsr : check_pos sr sc = true := check_pos_iff.mpr hb
  have hpy_sr : py_idx sr = sr := py_idx_of_nonneg hb.1
  have hpy_sc : py_idx sc = sc := py_idx_of_nonneg hb.2.2.1
  have hpy_er : py_idx er = er := py_idx_of_nonneg her.1
  have hpy_ec : py_idx ec = ec := py_idx_of_nonneg her.2.2.1
  -- the grid after undo equals the original grid, pointwise
  have hgrid : set_figure (set_figure (Board.move_figure g.cells sr sc er ec).1
      sr sc (get_figure (Board.move_figure g.cells sr sc er ec).1 er ec)) er ec cap
      = g.cells := by
    rw [hdest]
    funext r c
    simp only [set_figure, hcells, hpy_sr, hpy_sc, hpy_er, hpy_ec]
    split_ifs with k1 k2
    · rw [k1.1, k1.2, hcap, get_figure_in_range _ _ _ hcp]
    · rw [k2.1, k2.2, ← get_figure_in_range g.cells sr sc hcpsr, hg]
    · rfl
  obtain ⟨cells0, turn0, count0, mvs0⟩ := g
  rcases cap with - | cf
  · simp only [Game.play_step, hg, hmv]
    simp only [Game.undo_move]
    simp only at hgrid
    rw [hgrid]
    simp only [GameState.mk.injEq, Color.other_other]
    refine ⟨trivial, trivial, by ring, trivial⟩
  · have hnd : ¬(fig.kind = .Demon) := fun h => hdemon ⟨h, by simp⟩
    have hnk : ¬(cf.kind = .King) := hking cf rfl
    simp only [Game.play_step, hg, hmv]
    rw [if_neg hnd, if_neg hnk]
    dsimp only
    simp only [Game.undo_move]
    simp only at hgrid
    rw [hgrid]
    simp only [GameState.mk.injEq, Color.other_other]
    refine ⟨trivial, trivial, by ring, trivial⟩

/-- Witness for C1: a white Rook captures a black Pawn (no Demon, no
King involved); undoing restores the original game state exactly. -/
theorem C1_witness :
    Game.undo_move (Game.play_step
      (⟨(fun r c =>
        if r = 0 ∧ c = 0 then some ⟨.white, .Rook, .King⟩
        else if r = 0 ∧ c = 3 then some ⟨.black, .Pawn, .King⟩
        else none : Cells Figure), .white, 1, []⟩ : GameState)
      (.move 0 0 0 3)).1 =
    (⟨(fun r c =>
        if r = 0 ∧ c = 0 then some ⟨.white, .Rook, .King⟩
        else if r = 0 ∧ c = 3 then some ⟨.black, .Pawn, .King⟩
        else none : Cells Figure), .white, 1, []⟩ : GameState) :=
  C1_undo_after_apply _ 0 0 0 3 ⟨.white, .Rook, .King⟩ (some ⟨.black, .Pawn, .King⟩)
    (by decide) (by decide) (by decide)
    (fun q hq => by cases hq; decide) (by decide)

/-! ## C10 -/

/-- Every occupied square of a checkers grid is an on-board dark
square (`(row + col) % 2 = 1`). -/
def dark_only (cells : Cells CFigure) : Prop :=
  ∀ r c : ℤ, cells r c ≠ none →
    0 ≤ r ∧ r < 8 ∧ 0 ≤ c ∧ c < 8 ∧ (r + c) % 2 = 1

/-- Checkers destinations have the same square color as the origin. -/
theorem c_moves_parity {f : CFigure} {cells : Cells CFigure} {sr sc : ℤ}
    {is_killer : Bool} {p : ℤ × ℤ}
    (h : p ∈ f.get_possible_moves cells sr sc is_killer) :
    (p.1 + p.2) % 2 = (sr + sc) % 2 := by
  obtain ⟨d, hd, k, hk1, h1, h2⟩ := mem_c_moves_diag h
  simp only [checker_dirs, List.mem_cons, List.mem_singleton,
    List.not_mem_nil, or_false] at hd
  rcases hd with rfl | rfl | rfl | rfl <;> (dsimp only at h1 h2; omega)

/-- C10: in the checkers variant every piece of the initial layout sits
on a dark square, every legal destination has the same square color as
its origin, and every successful `CheckersBoard.move_figure` preserves
the dark-squares-only invariant, so all pieces stay on dark squares in
every reachable board state. -/
theorem C10_dark_square_invariant :
    dark_only checkers_initial_cells ∧
    (∀ (f : CFigure) (cells : Cells CFigure) (sr sc : ℤ) (is_killer : Bool)
      (p : ℤ × ℤ), p ∈ f.get_possible_moves cells sr sc is_killer →
      (p.1 + p.2) % 2 = (sr + sc) % 2) ∧
    (∀ (cells : Cells CFigure) (sr sc er ec : ℤ) (is_killer : Bool)
      (cap : Option CFigure),
      0 ≤ sr ∧ sr < 8 ∧ 0 ≤ sc ∧ sc < 8 →
      dark_only cells →
      (CheckersBoard.move_figure cells sr sc er ec is_killer).2 = .moved cap →
      dark_only (CheckersBoard.move_figure cells sr sc er ec is_killer).1) := by
  refine ⟨?_, fun f cells sr sc is_killer p h => c_moves_parity h, ?_⟩
  · intro r c h
    simp only [checkers_initial_cells] at h
    split_ifs at h with h1 h2 h3
    · exact ⟨h1.2.1, h1.2.2.1, h1.2.2.2.1, h1.2.2.2.2, h1.1⟩
    · exact ⟨h1.2.1, h1.2.2.1, h1.2.2.2.1, h1.2.2.2.2, h1.1⟩
    · exact absurd rfl h
    · exact absurd rfl h
  · intro cells sr sc er ec is_killer cap hb hdark hmv
    obtain ⟨fig, hg, hv, -, hcells⟩ := checkers_move_moved_spec hmv
    obtain ⟨hcp, -, hmem⟩ := c_is_valid_move_facts hv
    have her := check_pos_iff.mp hcp
    have hsrdark : (sr + sc) % 2 = 1 := by
      have : cells sr sc ≠ none := by
        rw [← get_figure_in_range cells sr sc (check_pos_iff.mpr hb), hg]
        simp
      exact (hdark sr sc this).2.2.2.2
    have herdark : (er + ec) % 2 = 1 := by
      have := c_moves_parity hmem
      dsimp only at this
      omega
    have hpy_er : py_idx er = er := py_idx_of_nonneg her.1
    have hpy_ec : py_idx ec = ec := py_idx_of_nonneg her.2.2.1
    rw [hcells]
    dsimp only
    intro r c h
    by_cases hpromo : (fig.color = .white ∧ er = 0) ∨ (fig.color = .black ∧ er = 7) <;>
      [rw [if_pos hpromo] at h; rw [if_neg hpromo] at h] <;>
      by_cases hjump : |er - sr| ≥ 2 <;>
        [rw [if_pos hjump] at h; rw [if_neg hjump] at h;
         rw [if_pos hjump] at h; rw [if_neg hjump] at h] <;>
      simp only [set_figure, hpy_er, hpy_ec] at h <;>
      split_ifs at h with k1 k2 k3 <;>
        first
          | (exact absurd rfl h)
          | (rw [k1.1, k1.2]; exact ⟨her.1, her.2.1, her.2.2.1, her.2.2.2, herdark⟩)
          | (rw [k2.1, k2.2]; exact ⟨her.1, her.2.1, her.2.2.1, her.2.2.2, herdark⟩)
          | (exact hdark r c h)

/-- Witness for C10: the initial checkers layout is dark-squares-only
and stays so after the opening step (5,0) → (4,1). -/
theorem C10_witness :
    dark_only checkers_initial_cells ∧
    dark_only (CheckersBoard.move_figure checkers_initial_cells 5 0 4 1 false).1 :=
  ⟨C10_dark_square_invariant.1,
   C10_dark_square_invariant.2.2 checkers_initial_cells 5 0 4 1 false none
     (by decide) C10_dark_square_invariant.1 (by decide)⟩

/-! ## C3 -/

/-- A white KingChecker at (4,4) facing a black Checker at (3,3). -/
def kc_cells : Cells CFigure := fun r c =>
  if r = 4 ∧ c = 4 then some ⟨.white, .KingChecker⟩
  else if r = 3 ∧ c = 3 then some ⟨.black, .Checker⟩
  else none

/-- C3, counterexample: the capture-only rule fails for a KingChecker,
whose `get_possible_moves` ignores `is_killer`.  For the white
KingChecker at (4,4) a capture is available (jump to (2,2) over the
black Checker at (3,3)), and the query is even made mid-chain
(`is_killer = true`), yet the destination set also contains the plain
slide (3,5), which `move_figure` accepts with no capture. -/
theorem C3_counterexample :
    (2, 2) ∈ (⟨.white, .KingChecker⟩ : CFigure).get_possible_moves kc_cells 4 4 true ∧
    get_figure kc_cells 3 3 = some ⟨.black, .Checker⟩ ∧
    get_figure kc_cells 2 2 = none ∧
    (3, 5) ∈ (⟨.white, .KingChecker⟩ : CFigure).get_possible_moves kc_cells 4 4 true ∧
    (CheckersBoard.move_figure kc_cells 4 4 3 5 true).2 = .moved none := by
  decide

/-- C3, amended: the capture-precedence rule holds for plain `Checker`
pieces: whenever the piece is mid-capture-chain (`is_killer = true`) or
any jump is available, its destination set is exactly the jump list,
every element of which is a capture destination (two squares along a
diagonal, over an adjacent enemy piece, onto an empty square).  A
`KingChecker` ignores `is_killer` and may also offer non-capturing
slides. -/
theorem C3_checker_capture_precedence (cells : Cells CFigure) (color : Color)
    (sr sc : ℤ) (is_killer : Bool)
    (h : is_killer = true ∨ checker_jump_moves cells color sr sc ≠ []) :
    Checker.get_possible_moves cells color sr sc is_killer =
      checker_jump_moves cells color sr sc ∧
    ∀ p ∈ checker_jump_moves cells color sr sc,
      ∃ d ∈ checker_dirs, p = (sr + 2 * d.1, sc + 2 * d.2) ∧
        (∃ q, get_figure cells (sr + d.1) (sc + d.2) = some q ∧ q.color ≠ color) ∧
        get_figure cells p.1 p.2 = none := by
  constructor
  · simp only [Checker.get_possible_moves]
    split_ifs with h1 <;> first | rfl | (exact absurd h h1)
  · intro p hp
    obtain ⟨d, hd, hpe, -, he, -, hn⟩ := mem_checker_jump_moves hp
    exact ⟨d, hd, hpe, he, hn⟩

/-- Witness for C3: a white Checker at (4,4) with the same black
Checker at (3,3) must jump: its destination set is exactly the jump
list `[(2,2)]`. -/
theorem C3_witness :
    ((⟨.white, .Checker⟩ : CFigure).ckind = .Checker ∧
      checker_jump_moves kc_cells .white 4 4 ≠ []) ∧
    Checker.get_possible_moves kc_cells .white 4 4 false =
      checker_jump_moves kc_cells .white 4 4 :=
  ⟨⟨rfl, by decide⟩,
   (C3_checker_capture_precedence kc_cells .white 4 4 false (Or.inr (by decide))).1⟩

/-! ## C6 -/

/-- Soundness of the sliding loop: every produced square is at some
distance `k` along the direction, all strictly earlier squares are
empty, the square is on the board, and it is empty or holds an
enemy. -/
theorem slide_moves_sound {cells : Cells Figure} {color : Color} {dy dx : ℤ} :
    ∀ {fuel : ℕ} {row col : ℤ} {p : ℤ × ℤ},
      p ∈ slide_moves cells color row col dy dx fuel →
      ∃ k : ℕ, k < fuel ∧ p = (row + k * dy, col + k * dx) ∧
        (∀ i : ℕ, i < k → get_figure cells (row + i * dy) (col + i * dx) = none) ∧
        check_pos p.1 p.2 = true ∧
        (get_figure cells p.1 p.2 = none ∨
          ∃ q, get_figure cells p.1 p.2 = some q ∧ q.color ≠ color) := by
  intro fuel
  induction fuel with
  | zero => intro row col p h; simp [slide_moves] at h
  | succ n ih =>
    intro row col p h
    have hshift : ∀ (a b : ℤ) (i : ℕ), a + b + (i:ℤ) * b = a + ((i+1:ℕ):ℤ) * b := by
      intro a b i; push_cast; ring
    rw [slide_moves] at h
    by_cases hc : check_pos row col = true
    · rw [if_pos hc] at h
      rcases hg : get_figure cells row col with - | q <;> simp only [hg] at h
      · rcases List.mem_cons.mp h with rfl | h
        · exact ⟨0, Nat.succ_pos n, by simp, fun i hi => absurd hi (Nat.not_lt_zero i),
            by simpa using hc, Or.inl (by simpa using hg)⟩
        · obtain ⟨k, hk, hpe, hemp, hcp2, hlast⟩ := ih h
          refine ⟨k + 1, by omega, ?_, ?_, hcp2, hlast⟩
          · rw [hpe, ← hshift, ← hshift]
          · intro i hi
            cases i with
            | zero => simpa using hg
            | succ m =>
              rw [← hshift, ← hshift]
              exact hemp m (by omega)
      · by_cases hq : q.color ≠ color
        · rw [if_pos hq] at h
          rcases List.mem_singleton.mp h with rfl
          exact ⟨0, Nat.succ_pos n, by simp, fun i hi => absurd hi (Nat.not_lt_zero i),
            by simpa using hc, Or.inr ⟨q, by simpa using hg, hq⟩⟩
        · rw [if_neg hq] at h; cases h
    · rw [if_neg hc] at h; cases h

/-- Completeness of the sliding loop: a square at distance `k` along
the direction, preceded by on-board empty squares and itself on the
board and empty-or-enemy, is produced (the fuel permitting). -/
theorem slide_moves_complete {cells : Cells Figure} {color : Color} {dy dx : ℤ} :
    ∀ {fuel : ℕ} {row col : ℤ} (k : ℕ), k < fuel →
      (∀ i : ℕ, i ≤ k → check_pos (row + i * dy) (col + i * dx) = true) →
      (∀ i : ℕ, i < k → get_figure cells (row + i * dy) (col + i * dx) = none) →
      (get_figure cells (row + k * dy) (col + k * dx) = none ∨
        ∃ q, get_figure cells (row + k * dy) (col + k * dx) = some q ∧
          q.color ≠ color) →
      (row + k * dy, col + k * dx) ∈ slide_moves cells color row col dy dx fuel := by
  intro fuel
  induction fuel with
  | zero => intro row col k hk; omega
  | succ n ih =>
    intro row col k hk hcp hemp hlast
    have hshift : ∀ (a b : ℤ) (i : ℕ), a + b + (i:ℤ) * b = a + ((i+1:ℕ):ℤ) * b := by
      intro a b i; push_cast; ring
    have hc0 : check_pos row col = true := by simpa using hcp 0 (Nat.zero_le k)
    rw [slide_moves, if_pos hc0]
    cases k with
    | zero =>
      simp only [Nat.cast_zero, zero_mul, add_zero] at hlast ⊢
      rcases hlast with hnone | ⟨q, hq, hqc⟩
      · rw [hnone]
        exact List.mem_cons_self _ _
      · rw [hq]
        simp only
        rw [if_pos hqc]
        exact List.mem_singleton.mpr rfl
    | succ m =>
      have hg0 : get_figure cells row col = none := by simpa using hemp 0 (Nat.succ_pos m)
      rw [hg0]
      simp only
      refine List.mem_cons_of_mem _ ?_
      have hres := @ih (row + dy) (col + dx) m (by omega)
        (fun i hi => by rw [hshift, hshift]; exact hcp (i + 1) (by omega))
        (fun i hi => by rw [hshift, hshift]; exact hemp (i + 1) (by omega))
        (by rw [hshift, hshift]; exact hlast)
      rw [hshift, hshift] at hres
      exact hres

/-- Distinct slide directions give disjoint rays: a square at distance
`k ≥ 1` along one of the eight rook/bishop directions determines the
direction and the distance. -/
theorem dir_unique {sr sc : ℤ} {d d' : ℤ × ℤ} {k k' : ℕ}
    (hd : d ∈ rook_dirs ++ bishop_dirs) (hd' : d' ∈ rook_dirs ++ bishop_dirs)
    (hk : 1 ≤ k) (hk' : 1 ≤ k')
    (h1 : sr + (k:ℤ) * d.1 = sr + (k':ℤ) * d'.1)
    (h2 : sc + (k:ℤ) * d.2 = sc + (k':ℤ) * d'.2) :
    d.1 = d'.1 ∧ d.2 = d'.2 ∧ k = k' := by
  simp only [rook_dirs, bishop_dirs, List.mem_append, List.mem_cons,
    List.mem_singleton, List.not_mem_nil, or_false] at hd hd'
  rcases hd with (rfl | rfl | rfl | rfl) | (rfl | rfl | rfl | rfl) <;>
    rcases hd' with (rfl | rfl | rfl | rfl) | (rfl | rfl | rfl | rfl) <;>
    (dsimp only at h1 h2 ⊢; omega)

/-- Core blocking property of the flattened per-direction slides: with
the first occupied square of a direction at distance `j`, no square
strictly beyond distance `j` in that direction is ever produced, and
the distance-`j` square is produced iff its occupant is an enemy. -/
theorem slide_flatten_blocked {cells : Cells Figure} {color : Color}
    {sr sc dy dx : ℤ} {j : ℕ} {q : Figure} {dirs : List (ℤ × ℤ)}
    (hsub : ∀ d ∈ dirs, d ∈ rook_dirs ++ bishop_dirs)
    (hmem : (dy, dx) ∈ dirs)
    (hb : 0 ≤ sr ∧ sr < 8 ∧ 0 ≤ sc ∧ sc < 8)
    (hj : 1 ≤ j)
    (hcp : check_pos (sr + (j:ℤ) * dy) (sc + (j:ℤ) * dx) = true)
    (hocc : get_figure cells (sr + (j:ℤ) * dy) (sc + (j:ℤ) * dx) = some q)
    (hempty : ∀ i : ℕ, 1 ≤ i → i < j →
      get_figure cells (sr + (i:ℤ) * dy) (sc + (i:ℤ) * dx) = none) :
    (∀ k : ℕ, j < k →
      (sr + (k:ℤ) * dy, sc + (k:ℤ) * dx) ∉
        (dirs.map fun d =>
          slide_moves cells color (sr + d.1) (sc + d.2) d.1 d.2 8).flatten) ∧
    ((sr + (j:ℤ) * dy, sc + (j:ℤ) * dx) ∈
        (dirs.map fun d =>
          slide_moves cells color (sr + d.1) (sc + d.2) d.1 d.2 8).flatten
      ↔ q.color ≠ color) := by
  have hshift : ∀ (a b : ℤ) (i : ℕ), a + b + (i:ℤ) * b = a + ((i+1:ℕ):ℤ) * b := by
    intro a b i; push_cast; ring
  have hdir8 := hsub _ hmem
  -- the eight possible directions, as component equations
  have hdcase : (dy = -1 ∧ dx = 0) ∨ (dy = 1 ∧ dx = 0) ∨ (dy = 0 ∧ dx = -1) ∨
      (dy = 0 ∧ dx = 1) ∨ (dy = -1 ∧ dx = -1) ∨ (dy = -1 ∧ dx = 1) ∨
      (dy = 1 ∧ dx = -1) ∨ (dy = 1 ∧ dx = 1) := by
    simp only [rook_dirs, bishop_dirs, List.mem_append, List.mem_cons,
      List.mem_singleton, List.not_mem_nil, or_false, Prod.mk.injEq] at hdir8
    tauto
  have hcp' := check_pos_iff.mp hcp
  -- every square from the origin out to distance j is on the board
  have hboth : (∀ i : ℕ, i ≤ j →
      check_pos (sr + (i:ℤ) * dy) (sc + (i:ℤ) * dx) = true) ∧ j < 8 := by
    rcases hdcase with h8 | h8 | h8 | h8 | h8 | h8 | h8 | h8 <;>
      obtain ⟨rfl, rfl⟩ := h8 <;>
      exact ⟨fun i hi => by rw [check_pos_iff]; omega, by omega⟩
  have hint := hboth.1
  have hj8 := hboth.2
  constructor
  · -- nothing strictly beyond the first occupied square
    intro k hk hin
    rw [List.mem_flatten] at hin
    obtain ⟨l, hl, hpl⟩ := hin
    rw [List.mem_map] at hl
    obtain ⟨d', hd', rfl⟩ := hl
    obtain ⟨k₀, -, hpe, hemp₀, -, -⟩ := slide_moves_sound hpl
    have hpe1 : sr + (k:ℤ) * dy = sr + ((k₀+1:ℕ):ℤ) * d'.1 := by
      have h := congrArg Prod.fst hpe
      dsimp only at h
      rw [h, hshift]
    have hpe2 : sc + (k:ℤ) * dx = sc + ((k₀+1:ℕ):ℤ) * d'.2 := by
      have h := congrArg Prod.snd hpe
      dsimp only at h
      rw [h, hshift]
    obtain ⟨hd1, hd2, hkk⟩ := dir_unique hdir8
      (hsub _ hd') (show 1 ≤ k by omega) (Nat.le_add_left 1 k₀) hpe1 hpe2
    have hthis := hemp₀ (j - 1) (by omega)
    rw [← hd1, ← hd2, hshift sr dy (j-1), hshift sc dx (j-1),
      show (j - 1 + 1 : ℕ) = j by omega, hocc] at hthis
    cases hthis
  · constructor
    · -- membership of the blocking square forces an enemy occupant
      intro hin
      rw [List.mem_flatten] at hin
      obtain ⟨l, hl, hpl⟩ := hin
      rw [List.mem_map] at hl
      obtain ⟨d', hd', rfl⟩ := hl
      obtain ⟨k₀, -, -, -, -, hlast⟩ := slide_moves_sound hpl
      dsimp only at hlast
      rcases hlast with hnone | ⟨q', hq', hc⟩
      · rw [hocc] at hnone; cases hnone
      · rw [hocc] at hq'
        cases Option.some.inj hq'
        exact hc
    · -- an enemy blocking square is produced
      intro henemy
      rw [List.mem_flatten]
      refine ⟨slide_moves cells color (sr + dy) (sc + dx) dy dx 8,
        List.mem_map.mpr ⟨(dy, dx), hmem, rfl⟩, ?_⟩
      have hres := @slide_moves_complete cells color dy dx 8 (sr + dy) (sc + dx)
        (j - 1)
        (by omega)
        (fun i hi => by
          rw [hshift sr dy i, hshift sc dx i]
          exact hint (i + 1) (by omega))
        (fun i hi => by
          rw [hshift sr dy i, hshift sc dx i]
          exact hempty (i + 1) (by omega) (by omega))
        (by
          rw [hshift sr dy (j-1), hshift sc dx (j-1),
            show (j - 1 + 1 : ℕ) = j by omega, hocc]
          exact Or.inr ⟨q, rfl, henemy⟩)
      rw [hshift sr dy (j-1), hshift sc dx (j-1),
        show (j - 1 + 1 : ℕ) = j by omega] at hres
      exact hres

/-- The sliding directions of the three sliding piece kinds. -/
def slide_dirs : Kind → List (ℤ × ℤ)
  | .Rook => rook_dirs
  | .Bishop => bishop_dirs
  | .Queen => rook_dirs ++ bishop_dirs
  | _ => []

/-- C6: for a Rook, Bishop or Queen and any of its sliding directions,
with the first occupied square of that direction at distance `j`
(every nearer square in the direction being empty), the destination
set never contains a square strictly beyond distance `j` in that
direction, and it contains the distance-`j` square iff the piece on it
is an enemy. -/
theorem C6_sliding_blocked (cells : Cells Figure) (f : Figure) (sr sc dy dx : ℤ)
    (j : ℕ) (q : Figure)
    (hkind : f.kind = .Rook ∨ f.kind = .Bishop ∨ f.kind = .Queen)
    (hdir : (dy, dx) ∈ slide_dirs f.kind)
    (hb : 0 ≤ sr ∧ sr < 8 ∧ 0 ≤ sc ∧ sc < 8)
    (hj : 1 ≤ j)
    (hcp : check_pos (sr + (j:ℤ) * dy) (sc + (j:ℤ) * dx) = true)
    (hocc : get_figure cells (sr + (j:ℤ) * dy) (sc + (j:ℤ) * dx) = some q)
    (hempty : ∀ i : ℕ, 1 ≤ i → i < j →
      get_figure cells (sr + (i:ℤ) * dy) (sc + (i:ℤ) * dx) = none) :
    (∀ k : ℕ, j < k →
      (sr + (k:ℤ) * dy, sc + (k:ℤ) * dx) ∉ f.get_possible_moves cells sr sc) ∧
    ((sr + (j:ℤ) * dy, sc + (j:ℤ) * dx) ∈ f.get_possible_moves cells sr sc
      ↔ q.color ≠ f.color) := by
  obtain ⟨color, kind, power⟩ := f
  dsimp only at hkind hdir hocc ⊢
  rcases hkind with rfl | rfl | rfl
  · simp only [slide_dirs] at hdir
    simp only [Figure.get_possible_moves, fresh_moves, rook_moves]
    exact slide_flatten_blocked (fun d hd => List.mem_append_left _ hd)
      hdir hb hj hcp hocc hempty
  · simp only [slide_dirs] at hdir
    simp only [Figure.get_possible_moves, fresh_moves, bishop_moves]
    exact slide_flatten_blocked (fun d hd => List.mem_append_right _ hd)
      hdir hb hj hcp hocc hempty
  · simp only [slide_dirs] at hdir
    simp only [Figure.get_possible_moves, fresh_moves, queen_moves, rook_moves,
      bishop_moves, ← List.flatten_append, ← List.map_append]
    exact slide_flatten_blocked (fun d hd => hd) hdir hb hj hcp hocc hempty

/-- A white Rook at (0,0) with a black Pawn at (0,3). -/
def rook_cells : Cells Figure := fun r c =>
  if r = 0 ∧ c = 0 then some ⟨.white, .Rook, .King⟩
  else if r = 0 ∧ c = 3 then some ⟨.black, .Pawn, .King⟩
  else none

/-- Witness for C6: along the rightward direction from (0,0), the Rook
reaches nothing beyond the black Pawn at (0,3) and may capture it. -/
theorem C6_witness :
    (∀ k : ℕ, 3 < k → ((0:ℤ) + (k:ℤ) * 0, (0:ℤ) + (k:ℤ) * 1) ∉
      (⟨.white, .Rook, .King⟩ : Figure).get_possible_moves rook_cells 0 0) ∧
    (((0:ℤ) + ((3:ℕ):ℤ) * 0, (0:ℤ) + ((3:ℕ):ℤ) * 1) ∈
        (⟨.white, .Rook, .King⟩ : Figure).get_possible_moves rook_cells 0 0 ↔
      (⟨.black, .Pawn, .King⟩ : Figure).color ≠
        (⟨.white, .Rook, .King⟩ : Figure).color) :=
  C6_sliding_blocked rook_cells ⟨.white, .Rook, .King⟩ 0 0 0 1 3
    ⟨.black, .Pawn, .King⟩ (Or.inl rfl) (by decide) (by decide) (by decide)
    (by decide) (by decide)
    (fun i h1 h2 => by interval_cases i <;> decide)

/-! ## C7 -/

/-- The position a `chain` result resumes from. -/
def InnerResult.pos : InnerResult → Option (ℤ × ℤ)
  | .chain _ r c => some (r, c)
  | _ => none

/-- Scan of one diagonal for a KingChecker capture: the first occupied
square, if an enemy with an empty on-board square just past it, yields
that landing square. -/
def kc_capture_in_dir (cells : Cells CFigure) (color : Color) (row col dr dc : ℤ) :
    ℕ → Option (ℤ × ℤ)
  | 0 => none
  | fuel + 1 =>
    if check_pos row col then
      match get_figure cells row col with
      | none => kc_capture_in_dir cells color (row + dr) (col + dc) dr dc fuel
      | some p =>
        if p.color ≠ color ∧ check_pos (row + dr) (col + dc) = true ∧
            get_figure cells (row + dr) (col + dc) = none then
          some (row + dr, col + dc)
        else none
    else none

/-- "A capture is available for this piece here", following each
kind's capture clause. -/
def capture_available (cells : Cells CFigure) (f : CFigure) (r c : ℤ) : Bool :=
  match f.ckind with
  | .Checker => !(checker_jump_moves cells f.color r c).isEmpty
  | .KingChecker =>
    checker_dirs.any fun d =>
      (kc_capture_in_dir cells f.color (r + d.1) (c + d.2) d.1 d.2 8).isSome

/-- A capture found by the diagonal scan is among the squares the
KingChecker scan of that diagonal produces. -/
theorem kc_capture_in_dir_mem {cells : Cells CFigure} {color : Color} {dr dc : ℤ} :
    ∀ {fuel : ℕ} {row col : ℤ} {p : ℤ × ℤ},
      kc_capture_in_dir cells color row col dr dc fuel = some p →
      p ∈ kc_slide cells color row col dr dc fuel := by
  intro fuel
  induction fuel with
  | zero => intro row col p h; cases h
  | succ n ih =>
    intro row col p h
    rw [kc_capture_in_dir] at h
    rw [kc_slide]
    by_cases hc : check_pos row col = true
    · rw [if_pos hc] at h
      rw [if_pos hc]
      rcases hg : get_figure cells row col with - | q <;> simp only [hg] at h ⊢
      · exact List.mem_cons_of_mem _ (ih h)
      · by_cases hq : q.color ≠ color ∧ check_pos (row + dr) (col + dc) = true ∧
            get_figure cells (row + dr) (col + dc) = none
        · rw [if_pos hq] at h
          cases h
          rw [if_pos hq.1, if_pos ⟨hq.2.1, hq.2.2⟩]
          exact List.mem_singleton.mpr rfl
        · rw [if_neg hq] at h; cases h
    · rw [if_neg hc] at h; cases h

/-- When a capture is available, the piece's hint list (queried with
`is_killer = true`) is non-empty. -/
theorem capture_available_moves_ne_nil {cells : Cells CFigure} {f : CFigure}
    {r c : ℤ} (h : capture_available cells f r c = true) :
    f.get_possible_moves cells r c true ≠ [] := by
  rcases f with ⟨color, ckind⟩
  cases ckind with
  | Checker =>
    replace h : checker_jump_moves cells color r c ≠ [] := by
      simp only [capture_available] at h
      intro hx
      rw [hx] at h
      simp at h
    simp only [CFigure.get_possible_moves, Checker.get_possible_moves]
    split_ifs with h1 <;>
      first
        | exact h
        | (intro hx; exact h (List.append_eq_nil.mp hx).1)
  | KingChecker =>
    simp only [capture_available, List.any_eq_true, Option.isSome_iff_exists] at h
    obtain ⟨d, hd, p, hp⟩ := h
    have hmem := kc_capture_in_dir_mem hp
    intro hx
    have : p ∈ (⟨color, .KingChecker⟩ : CFigure).get_possible_moves cells r c true := by
      simp only [CFigure.get_possible_moves, KingChecker.get_possible_moves,
        List.mem_flatten]
      exact ⟨_, List.mem_map.mpr ⟨d, hd, rfl⟩, hmem⟩
    rw [hx] at this
    cases this

/-- C7, part confirmed/amended: when an iteration of the inner loop of
`CheckersGame.play` ends in a capture (`chain`), `current_turn` and
`move_count` are unchanged and the loop resumes from the landing
square with `is_killer = true`; and if from that landing square a
further capture is available for the piece now standing there, the
next iteration does not break (the ply does not end there and the same
piece must move on).  The ply ends exactly when the re-queried hint
list is empty — for a plain Checker that list is the capture list, but
a Checker promoted to KingChecker by the jump also offers non-capturing
slides, so the turn may stay with the mover even when no further
capture exists (see the counterexample). -/
theorem C7_capture_chain (s : CState) (sr sc er ec : ℤ) (is_killer : Bool)
    (hchain : (CheckersGame.inner_step s sr sc is_killer er ec).is_chain = true) :
    (CheckersGame.inner_step s sr sc is_killer er ec).state.current_turn =
      s.current_turn ∧
    (CheckersGame.inner_step s sr sc is_killer er ec).state.move_count =
      s.move_count ∧
    (CheckersGame.inner_step s sr sc is_killer er ec).pos = some (er, ec) ∧
    (∀ (fig : CFigure) (t u : ℤ),
      get_figure (CheckersGame.inner_step s sr sc is_killer er ec).state.cells
        er ec = some fig →
      capture_available
        (CheckersGame.inner_step s sr sc is_killer er ec).state.cells fig er ec
        = true →
      (CheckersGame.inner_step
        (CheckersGame.inner_step s sr sc is_killer er ec).state er ec true t u
        ).is_no_moves = false) := by
  have hcont : ∀ (s' : CState) (fig : CFigure) (t u : ℤ),
      get_figure s'.cells er ec = some fig →
      capture_available s'.cells fig er ec = true →
      (CheckersGame.inner_step s' er ec true t u).is_no_moves = false := by
    intro s' fig t u hfig havail
    have hne := capture_available_moves_ne_nil havail
    simp only [CheckersGame.inner_step, hfig]
    rw [if_neg (by simpa using hne)]
    rcases h2 : (CheckersBoard.move_figure s'.cells er ec t u true).2 with - | cap
    · simp only [h2, InnerResult.is_no_moves]
    · simp only [h2]
      rcases cap with - | cf <;> simp [InnerResult.is_no_moves]
  rw [CheckersGame.inner_step] at hchain ⊢
  rcases hg : get_figure s.cells sr sc with - | figure <;> simp only [hg] at hchain ⊢
  · cases hchain
  · by_cases hmoves : (figure.get_possible_moves s.cells sr sc is_killer).isEmpty = true
    · rw [if_pos hmoves] at hchain; cases hchain
    · rw [if_neg hmoves] at hchain ⊢
      rcases h2 : (CheckersBoard.move_figure s.cells sr sc er ec is_killer).2
        with - | cap <;> simp only [h2] at hchain ⊢
      · cases hchain
      · rcases cap with - | cf <;> simp only at hchain ⊢
        · cases hchain
        · exact ⟨rfl, rfl, rfl, fun fig t u => hcont _ fig t u⟩

/-- A white Checker at (2,2) with a black Checker at (1,1), one jump
away from the promotion row. -/
def chain_cells : Cells CFigure := fun r c =>
  if r = 2 ∧ c = 2 then some ⟨.white, .Checker⟩
  else if r = 1 ∧ c = 1 then some ⟨.black, .Checker⟩
  else none

def chain_s0 : CState := ⟨chain_cells, .white, 1⟩

/-- C7, counterexample: `currentTurn` does not always change once no
further capture exists after a capturing jump.  The white Checker
jumps (2,2) → (0,0), capturing (1,1) and promoting to a KingChecker;
no capture is available from (0,0), yet the inner loop does not end
the ply: the promoted KingChecker (whose `get_possible_moves` ignores
`is_killer`) offers plain slides, so the same player — the turn still
white — is prompted again and a non-capturing slide (0,0) → (1,1) is
accepted and completes as an ordinary move. -/
theorem C7_counterexample :
    (CheckersGame.inner_step chain_s0 2 2 false 0 0).is_chain = true ∧
    (CheckersGame.inner_step chain_s0 2 2 false 0 0).state.current_turn = .white ∧
    get_figure (CheckersGame.inner_step chain_s0 2 2 false 0 0).state.cells 0 0 =
      some ⟨.white, .KingChecker⟩ ∧
    capture_available (CheckersGame.inner_step chain_s0 2 2 false 0 0).state.cells
      ⟨.white, .KingChecker⟩ 0 0 = false ∧
    (CheckersGame.inner_step
      (CheckersGame.inner_step chain_s0 2 2 false 0 0).state 0 0 true 1 1
      ).is_no_moves = false ∧
    (CheckersGame.inner_step
      (CheckersGame.inner_step chain_s0 2 2 false 0 0).state 0 0 true 1 1
      ).is_done = true := by
  decide

/-- Witness for C7: a white Checker at (5,2) jumps the black Checker at
(4,3) and lands on (3,4), from where another capture (over (2,5)) is
available: the turn is unchanged and the next iteration does not
break. -/
theorem C7_witness :
    (CheckersGame.inner_step
      (⟨(fun r c =>
        if r = 5 ∧ c = 2 then some ⟨.white, .Checker⟩
        else if r = 4 ∧ c = 3 then some ⟨.black, .Checker⟩
        else if r = 2 ∧ c = 5 then some ⟨.black, .Checker⟩
        else none : Cells CFigure), .white, 1⟩ : CState) 5 2 false 3 4
      ).state.current_turn = .white ∧
    (CheckersGame.inner_step
      (⟨(fun r c =>
        if r = 5 ∧ c = 2 then some ⟨.white, .Checker⟩
        else if r = 4 ∧ c = 3 then some ⟨.black, .Checker⟩
        else if r = 2 ∧ c = 5 then some ⟨.black, .Checker⟩
        else none : Cells CFigure), .white, 1⟩ : CState) 5 2 false 3 4
      ).pos = some (3, 4) ∧
    (CheckersGame.inner_step
      (CheckersGame.inner_step
        (⟨(fun r c =>
          if r = 5 ∧ c = 2 then some ⟨.white, .Checker⟩
          else if r = 4 ∧ c = 3 then some ⟨.black, .Checker⟩
          else if r = 2 ∧ c = 5 then some ⟨.black, .Checker⟩
          else none : Cells CFigure), .white, 1⟩ : CState) 5 2 false 3 4).state
      3 4 true 1 6).is_no_moves = false := by
  have h := C7_capture_chain
    (⟨(fun r c =>
      if r = 5 ∧ c = 2 then some ⟨.white, .Checker⟩
      else if r = 4 ∧ c = 3 then some ⟨.black, .Checker⟩
      else if r = 2 ∧ c = 5 then some ⟨.black, .Checker⟩
      else none : Cells CFigure), .white, 1⟩ : CState) 5 2 3 4 false (by decide)
  exact ⟨h.1, h.2.2.1, h.2.2.2 ⟨.white, .Checker⟩ 1 6 (by decide) (by decide)⟩
